import Mathlib

/-!
# Verification of the PBA legislation search core (`saij_core.py` / `bot.py`)

A shallow embedding of the query-understanding and ranking pipeline of the
repository: column resolution (`_pick_col`), the Spanish intent parser
(`parse_nl_query`), the filter + rank engine (`search`), and the comparison
routine (`compare_rows` / `summarize_row`), together with theorems settling
the specification's testable properties.

Modelling conventions:
* Python strings are Lean `String` / `List Char`.  Python's `str.lower` is
  modelled for ASCII plus the Spanish accented letters that occur in this
  code base; `\s`, `\d`, `\w` of Python's `re` are modelled over ASCII
  whitespace/digits plus the Spanish accented letters for word characters.
* Each regular expression of the source is transliterated into a dedicated
  scanning function with Python's leftmost-match and ordered-alternation
  (backtracking) semantics; `re.sub` is modelled by `subAll`, which replaces
  every non-overlapping match, scanning left to right on the original text.
* `pandas` data frames are a column list plus a list of rows
  (association lists from column name to string value); `Series.fillna("")`
  becomes lookup with default `""`.  `DataFrame.sort_values(ascending=False)`
  is modelled after pandas' `nargsort`: an ascending argsort followed by
  reversal of the indexer (for the underlying ascending argsort we use a
  stable sort, which is what numpy's introsort does on the small frames
  exercised here); rows with missing keys (`NaT`) are appended at the end
  (`na_position="last"`).  `head(n)` keeps the first `n` rows, and for
  negative `n` drops the last `|n|` rows, as in pandas.
* `rapidfuzz` scores are modelled over `ℚ`: `fuzz.ratio` is the Indel
  normalized similarity (via the longest common subsequence),
  `fuzz.partial_ratio` the best window alignment of the shorter string in
  the longer, and `fuzz.token_set_ratio` the documented token-set algorithm
  (equal token sets, in particular two whitespace-only inputs, score 100,
  matching rapidfuzz's convention that a normalized distance over an empty
  length sum is 0).
-/

/-! ## Character and string utilities -/

/-- Python `str.lower`, modelled for ASCII plus the Spanish accented
uppercase letters occurring in this code base. -/
def lowerChar (c : Char) : Char :=
  if c = 'Á' then 'á' else if c = 'É' then 'é' else if c = 'Í' then 'í'
  else if c = 'Ó' then 'ó' else if c = 'Ú' then 'ú' else if c = 'Ñ' then 'ñ'
  else if c = 'Ü' then 'ü' else c.toLower

/-- ASCII whitespace, the model of `\s` (and of Python's `str.split()` /
`str.strip()` separators). -/
def isWs (c : Char) : Bool :=
  c = ' ' || c = '\t' || c = '\n' || c = '\x0d' || c = '\x0b' || c = '\x0c'

/-- Word characters for `\b`, modelled as ASCII alphanumerics, underscore and
the Spanish accented letters. -/
def isWordChar (c : Char) : Bool :=
  c.isAlphanum || c = '_' ||
  ['á','é','í','ó','ú','ñ','ü','Á','É','Í','Ó','Ú','Ñ','Ü'].contains c

/-- Lowercase a string, Python `s.lower()`. -/
def lowerStr (s : String) : String := String.mk (s.toList.map lowerChar)

/-- Python substring containment `a in b` on lists of characters
(contiguous occurrence). -/
def subOf (a : List Char) : List Char → Bool
  | [] => a.isEmpty
  | c :: cs => a.isPrefixOf (c :: cs) || subOf a cs

/-- Case-insensitive containment, the model of
`Series.str.contains(pat, case=False)` on a literal (metacharacter-free)
pattern. -/
def containsCI (hay pat : String) : Bool :=
  subOf (pat.toList.map lowerChar) (hay.toList.map lowerChar)

/-- Python `s.strip()` over ASCII whitespace. -/
def trimWsL (s : List Char) : List Char :=
  ((s.dropWhile isWs).reverse.dropWhile isWs).reverse

/-- Pattern `(text or "").strip()`. -/
def pyStrip (s : String) : String := String.mk (trimWsL s.toList)

/-- Worker for `splitWsL`; `acc` holds the current word reversed. -/
def splitWsAux : List Char → List Char → List (List Char)
  | [], acc => if acc.isEmpty then [] else [acc.reverse]
  | c :: cs, acc =>
    if isWs c then
      if acc.isEmpty then splitWsAux cs [] else acc.reverse :: splitWsAux cs []
    else splitWsAux cs (c :: acc)

/-- Python `s.split()`: split on runs of whitespace, no empty fields. -/
def splitWsL (s : List Char) : List (List Char) := splitWsAux s []

/-- Python `s.split()` on strings. -/
def splitWs (s : String) : List String := (splitWsL s.toList).map String.mk

/-- Model of `" ".join(ts)`: join tokens with single spaces. -/
def joinSp : List String → String
  | [] => ""
  | [t] => t
  | t :: rest => t ++ " " ++ joinSp rest

/-- Model of `" ".join(s.split())`: collapse interior whitespace to single spaces and
trim the ends. -/
def collapseWs (s : String) : String := joinSp (splitWs s)

/-! ## Column resolver (`_pick_col`, saij_core.py lines 64-70)

```python
def _pick_col(df, keys):
    cols = list(df.columns); low = [c.lower() for c in cols]
    for k in keys:
        if k.lower() in low: return cols[low.index(k.lower())]
    for i,c in enumerate(low):
        if any(k.lower() in c for k in keys): return cols[i]
    return None
```
-/

/-- Model of `_pick_col`: two-pass column resolution.  First pass mirrors the Python
loop over `keys` using list membership and `low.index`; second pass mirrors
the loop over `enumerate(low)` with substring containment. -/
def pickCol (cols keys : List String) : Option String :=
  let low := cols.map lowerStr
  match keys.find? (fun k => low.contains (lowerStr k)) with
  | some k => cols.get? (low.indexOf (lowerStr k))
  | none =>
    ((cols.zip low).find?
      (fun p => keys.any (fun k => subOf (lowerStr k).toList p.2.toList))).map
      Prod.fst

/-- Declarative restatement of the specification's two-pass algorithm
(spec §4.1): the first alias (in priority order) with an exact
case-insensitive column match wins, taking the first such column; otherwise
the first column (in column order) whose lowercased name contains some alias
as a substring; otherwise unresolved. -/
def pickColSpec (cols keys : List String) : Option String :=
  match keys.find? (fun k => cols.any (fun c => lowerStr c == lowerStr k)) with
  | some k => cols.find? (fun c => lowerStr c == lowerStr k)
  | none => cols.find? (fun c => keys.any (fun k => subOf (lowerStr k).toList (lowerStr c).toList))

/-! ## The Spanish intent parser (`parse_nl_query`, saij_core.py lines 82-128)

Each regular expression of the source is transliterated into a scanning
function with Python's leftmost-match and ordered-alternation semantics. -/

/-- Case-insensitive literal match: consume `pat` (given lowercased) from the
front of `s`, returning the rest. -/
def matchCI : List Char → List Char → Option (List Char)
  | [], s => some s
  | _ :: _, [] => none
  | p :: ps, c :: cs => if lowerChar c = p then matchCI ps cs else none

/-- Greedy `\s*`. -/
def skipWs : List Char → List Char
  | [] => []
  | c :: cs => if isWs c then skipWs cs else c :: cs

/-- Pattern `\s+`: at least one whitespace character, then greedy. -/
def wsPlus : List Char → Option (List Char)
  | [] => none
  | c :: cs => if isWs c then some (skipWs cs) else none

/-- Greedy `\d+`, returning the digit run and the rest. -/
def digitsPlus (s : List Char) : Option (List Char × List Char) :=
  let ds := s.takeWhile Char.isDigit
  if ds.isEmpty then none else some (ds, s.dropWhile Char.isDigit)

/-- Pattern `\d{4}`: exactly four digits. -/
def fourDigits : List Char → Option (List Char × List Char)
  | a :: b :: c :: d :: rest =>
    if a.isDigit && b.isDigit && c.isDigit && d.isDigit then
      some ([a, b, c, d], rest)
    else none
  | _ => none

/-- Greedy `\d{1,2}`. -/
def digits12 : List Char → Option (List Char × List Char)
  | [] => none
  | a :: rest =>
    if a.isDigit then
      match rest with
      | b :: r => if b.isDigit then some ([a, b], r) else some ([a], rest)
      | [] => some ([a], [])
    else none

/-- Try the alternatives in order at the current position, each followed by
the continuation `tail`; the first alternative whose continuation also
succeeds wins (Python's ordered alternation with backtracking). -/
def altTail (tail : List Char → Option α) : List String → List Char → Option α
  | [], _ => none
  | a :: rest, s =>
    match (matchCI a.toList s).bind tail with
    | some v => some v
    | none => altTail tail rest s

/-- Model of `isWordChar` lifted to an optional character (`none` = string edge,
never a word character). -/
def isWordO : Option Char → Bool
  | some c => isWordChar c
  | none => false

/-- Python's `\b`: a word/non-word transition between adjacent positions. -/
def atBoundary (a b : Option Char) : Bool := isWordO a != isWordO b

/-- Leftmost match search (`re.search` / the scan of `re.sub`): try the
position matcher `mh` at every index from the left, threading the previous
character for word-boundary tests; returns the prefix before the match and
the matcher's result. -/
def findLeftB (mh : Option Char → List Char → Option α) :
    Option Char → List Char → Option (List Char × α)
  | prev, [] => (mh prev []).map fun a => ([], a)
  | prev, c :: cs =>
    match mh prev (c :: cs) with
    | some a => some ([], a)
    | none => (findLeftB mh (some c) cs).map fun pa => (c :: pa.1, pa.2)

/-- The alternation `(ley|decreto|resoluci[oó]n)` at the current position,
returning the lowercased captured word (`m.group(1).lower()`) and the rest.
The alternatives start with distinct letters, so at most one can apply at a
given position. -/
def tipoWordHere (s : List Char) : Option (String × List Char) :=
  match matchCI "ley".toList s with
  | some r => some ("ley", r)
  | none =>
    match matchCI "decreto".toList s with
    | some r => some ("decreto", r)
    | none =>
      match matchCI "resoluci".toList s with
      | some (c :: r) =>
        if lowerChar c = 'o' || lowerChar c = 'ó' then
          match matchCI "n".toList r with
          | some r2 => some (String.mk ("resoluci".toList ++ [lowerChar c, 'n']), r2)
          | none => none
        else none
      | _ => none

/-- Shared front of the rule-2 recognition regex
`(ley|decreto|resoluci[oó]n)\s+(\d+)...` (line 93) and its strip variant
(line 121): the tipo word, mandatory whitespace and the greedy digit run. -/
def r2FrontHere (s : List Char) : Option (String × String × List Char) :=
  (tipoWordHere s).bind fun wr =>
    (wsPlus wr.2).bind fun r2 =>
      (digitsPlus r2).map fun dr => (wr.1, String.mk dr.1, dr.2)

/-- Captured groups of the rule-2 recognition regex: the lowercased tipo
word, the digit run, the optional year, and the length of the whitespace
matched by `\s*` between `/` and the year (0 when no year group). -/
structure R2Groups where
  word : String
  num : String
  year : Option String
  wsGap : Nat
  deriving DecidableEq, Repr

/-- Rule-2 recognition match at the current position:
`(ley|decreto|resoluci[oó]n)\s+(\d+)(?:/\s*(\d{4}))?` (line 93), returning
the groups and the rest of the input. -/
def matchHereR2 (s : List Char) : Option (R2Groups × List Char) :=
  (r2FrontHere s).map fun wnr =>
    match wnr.2.2 with
    | c :: r =>
      if c = '/' then
        match fourDigits (r.dropWhile isWs) with
        | some yr => (⟨wnr.1, wnr.2.1, some (String.mk yr.1), (r.takeWhile isWs).length⟩, yr.2)
        | none => (⟨wnr.1, wnr.2.1, none, 0⟩, wnr.2.2)
      else (⟨wnr.1, wnr.2.1, none, 0⟩, wnr.2.2)
    | [] => (⟨wnr.1, wnr.2.1, none, 0⟩, wnr.2.2)

/-- Rule-2 strip match at the current position:
`(ley|decreto|resoluci[oó]n)\s+\d+(?:/\d{4})?` (line 121) — unlike the
recognition regex, no whitespace is allowed between `/` and the year. -/
def matchHereStrip1 (s : List Char) : Option (List Char) :=
  (r2FrontHere s).map fun wnr =>
    match wnr.2.2 with
    | c :: r =>
      if c = '/' then
        match fourDigits r with
        | some yr => yr.2
        | none => wnr.2.2
      else wnr.2.2
    | [] => wnr.2.2

/-- Consume the alias pattern (lowercased; `.` is the regex wildcard, any
character except newline) case-insensitively, returning the last consumed
character and the rest. -/
def consumeAlias : List Char → Option Char → List Char → Option (Option Char × List Char)
  | [], last, s => some (last, s)
  | _ :: _, _, [] => none
  | p :: ps, _, c :: cs =>
    if p = '.' then (if c = '\n' then none else consumeAlias ps (some c) cs)
    else if lowerChar c = p then consumeAlias ps (some c) cs
    else none

/-- Match the alias `pat` at the current position with Python's `\b` at both
ends, mirroring `re.search(rf"\b{k}\b", raw, re.I)` (line 101). -/
def aliasHere (pat : List Char) (prev : Option Char) (s : List Char) : Option (List Char) :=
  if atBoundary prev s.head? then
    match consumeAlias pat prev s with
    | some lr => if atBoundary lr.1 lr.2.head? then some lr.2 else none
    | none => none
  else none

/-- Rule 3: does the standalone alias word `k` occur anywhere in the text? -/
def standaloneTipo (k : String) (s : List Char) : Bool :=
  (findLeftB (aliasHere k.toList) none s).isSome

/-- Match one of `alts` (in order) at the current position, each with `\b` at
both ends, as in `\b(vigente|vigentes|en vigor|activo)\b` (lines 104-105). -/
def wordAltHere (alts : List String) (prev : Option Char) (s : List Char) :
    Option (List Char) :=
  match alts with
  | [] => none
  | a :: rest =>
    match aliasHere a.toList prev s with
    | some r => some r
    | none => wordAltHere rest prev s

/-- Does one of the `\b`-delimited cue words occur anywhere in the text? -/
def cueFound (alts : List String) (s : List Char) : Bool :=
  (findLeftB (wordAltHere alts) none s).isSome

/-- The cue words setting `vigente = True` (line 104). -/
def trueCues : List String := ["vigente", "vigentes", "en vigor", "activo"]

/-- The cue words setting `vigente = False` (line 105). -/
def falseCues : List String := ["derogad", "no vigente", "anulad", "abrogad", "caduc"]

/-- Pattern `\bcompar` at the current position (line 89). -/
def comparHere (prev : Option Char) (s : List Char) : Option (List Char) :=
  if atBoundary prev s.head? then matchCI "compar".toList s else none

/-- Does the comparison cue `\bcompar` occur anywhere in the text? -/
def comparFound (s : List Char) : Bool :=
  (findLeftB comparHere none s).isSome

/-- Model of `<word>\s+(\d{4})` at the current position (`desde`/`hasta`, lines
108-109 and the strip on line 122). -/
def wordYearHere (w : String) (s : List Char) : Option (String × List Char) :=
  (matchCI w.toList s).bind fun r =>
    (wsPlus r).bind fun r2 =>
      (fourDigits r2).map fun yr => (String.mk yr.1, yr.2)

/-- Leftmost `desde\s+(\d{4})` (line 108). -/
def findMd (s : List Char) : Option String :=
  (findLeftB (fun _ t => wordYearHere "desde" t) none s).map fun pa => pa.2.1

/-- Leftmost `hasta\s+(\d{4})` (line 109). -/
def findMh (s : List Char) : Option String :=
  (findLeftB (fun _ t => wordYearHere "hasta" t) none s).map fun pa => pa.2.1

/-- Pattern `(\d{4})\s*(?:a|hasta|-|al)\s*(\d{4})` at the current position
(line 110). -/
def mrHere (s : List Char) : Option (String × String × List Char) :=
  (fourDigits s).bind fun d1 =>
    altTail
      (fun r3 => (fourDigits (skipWs r3)).map fun d2 =>
        (String.mk d1.1, String.mk d2.1, d2.2))
      ["a", "hasta", "-", "al"] (skipWs d1.2)

/-- Leftmost bare year range (line 110), returning the two captured years. -/
def findMr (s : List Char) : Option (String × String) :=
  (findLeftB (fun _ t => mrHere t) none s).map fun pa => (pa.2.1, pa.2.2.1)

/-- Pattern `(?:año|anio)\s*(\d{4})` at the current position (line 114). -/
def maHere (s : List Char) : Option (String × List Char) :=
  altTail
    (fun r => (fourDigits (skipWs r)).map fun yr => (String.mk yr.1, yr.2))
    ["año", "anio"] s

/-- Leftmost standalone year cue (line 114). -/
def findMa (s : List Char) : Option String :=
  (findLeftB (fun _ t => maHere t) none s).map fun pa => pa.2.1

/-- Pattern `\s*\d{1,2}` after the `[: ]` separator: the whitespace is greedy and
cannot overlap the digits, so no backtracking is needed here. -/
def afterColon (s : List Char) : Option (String × List Char) :=
  (digits12 (skipWs s)).map fun dr => (String.mk dr.1, dr.2)

/-- Pattern `\s*[: ]\s*\d{1,2}` with Python's greedy backtracking: the first `\s*`
prefers to consume each whitespace character, falling back to using a space
as the `[: ]` separator when the longer attempt fails. -/
def sepDigits : List Char → Option (String × List Char)
  | [] => none
  | c :: cs =>
    if isWs c then
      match sepDigits cs with
      | some v => some v
      | none => if c = ':' || c = ' ' then afterColon cs else none
    else if c = ':' then afterColon cs
    else none

/-- Pattern `(?:limit|límite|limite)\s*[: ]\s*(\d{1,2})` at the current position
(line 117 and the strip on line 125, whose pattern
`(limit|l[ií]mite|limite)` matches the same word set). -/
def mlHere (s : List Char) : Option (String × List Char) :=
  altTail sepDigits ["limit", "límite", "limite"] s

/-- Leftmost limit cue (line 117). -/
def findMl (s : List Char) : Option String :=
  (findLeftB (fun _ t => mlHere t) none s).map fun pa => pa.2.1

/-- Pattern `(desde|hasta)\s+\d{4}` at the current position (strip, line 122). -/
def matchHereStrip2 (s : List Char) : Option (List Char) :=
  altTail
    (fun r => (wsPlus r).bind fun r2 => (fourDigits r2).map fun yr => yr.2)
    ["desde", "hasta"] s

/-- Pattern `\b\d{4}\s*(?:a|hasta|-|al)\s*\d{4}\b` at the current position (strip,
line 123; note the word boundaries absent from the recognition regex). -/
def matchHereStrip3 (prev : Option Char) (s : List Char) : Option (List Char) :=
  if atBoundary prev s.head? then
    (fourDigits s).bind fun d1 =>
      altTail
        (fun r3 => (fourDigits (skipWs r3)).bind fun d2 =>
          if atBoundary d2.1.getLast? d2.2.head? then some d2.2 else none)
        ["a", "hasta", "-", "al"] (skipWs d1.2)
  else none

/-- Pattern `(vigente|vigentes|derogad|no vigente|anulad|abrogad|caduc)` at the
current position (strip, line 124; no word boundaries, and `vigente` is
tried before `vigentes`, so in `vigentes` only `vigente` is removed). -/
def matchHereStrip4 (s : List Char) : Option (List Char) :=
  altTail some
    ["vigente", "vigentes", "derogad", "no vigente", "anulad", "abrogad", "caduc"] s

/-- Pattern `(limit|l[ií]mite|limite)\s*[: ]\s*\d{1,2}` at the current position
(strip, line 125). -/
def matchHereStrip5 (s : List Char) : Option (List Char) :=
  (mlHere s).map fun dr => dr.2

/-- Model of `re.sub(pat, " ", s)`: replace every non-overlapping match by a single
space, scanning left to right on the original text (the previous character
threaded for `\b` is the last character consumed by the preceding match).
`fuel` bounds the recursion; it is called with more fuel than the length of
the text, which suffices because every pattern used here consumes at least
one character per match. -/
def subAll (mh : Option Char → List Char → Option (List Char)) :
    Nat → Option Char → List Char → List Char
  | 0, _, s => s
  | fuel + 1, prev, s =>
    match findLeftB mh prev s with
    | none => s
    | some pa =>
      let consumed := (s.drop pa.1.length).take (s.length - pa.1.length - pa.2.length)
      pa.1 ++ ' ' :: subAll mh fuel (consumed.getLast?.orElse fun _ => prev) pa.2

/-- Strip of the rule-2 pattern (line 121). -/
def strip1 (s : List Char) : List Char :=
  subAll (fun _ t => matchHereStrip1 t) (s.length + 1) none s

/-- Strip of the `desde`/`hasta` pattern (line 122). -/
def strip2 (s : List Char) : List Char :=
  subAll (fun _ t => matchHereStrip2 t) (s.length + 1) none s

/-- Strip of the bare year-range pattern (line 123). -/
def strip3 (s : List Char) : List Char :=
  subAll matchHereStrip3 (s.length + 1) none s

/-- Strip of the validity-cue pattern (line 124). -/
def strip4 (s : List Char) : List Char :=
  subAll (fun _ t => matchHereStrip4 t) (s.length + 1) none s

/-- Strip of the limit pattern (line 125). -/
def strip5 (s : List Char) : List Char :=
  subAll (fun _ t => matchHereStrip5 t) (s.length + 1) none s

/-- The whole strip pipeline producing the free text `q` (lines 121-126,
before the final `or None`). -/
def stripPipeline (s : List Char) : String :=
  collapseWs (String.mk (strip5 (strip4 (strip3 (strip2 (strip1 s))))))

/-- Model of `_TIPO_ALIASES` (line 82), an insertion-ordered dict. -/
def tipoAliases : List (String × String) :=
  [("ley", "LEY"), ("decreto", "DECRETO"), ("resolucion", "RESOLUCIÓN"),
   ("resolución", "RESOLUCIÓN"), ("res.", "RESOLUCIÓN"), ("decr.", "DECRETO")]

/-- Python `str.upper`, for the (unreachable) fallback of
`_TIPO_ALIASES.get(w, w.upper())`. -/
def upperChar (c : Char) : Char :=
  if c = 'á' then 'Á' else if c = 'é' then 'É' else if c = 'í' then 'Í'
  else if c = 'ó' then 'Ó' else if c = 'ú' then 'Ú' else if c = 'ñ' then 'Ñ'
  else if c = 'ü' then 'Ü' else c.toUpper

/-- Model of `_TIPO_ALIASES.get(w, w.upper())` (line 95). -/
def tipoCanon (w : String) : String :=
  (tipoAliases.lookup w).getD (String.mk (w.toList.map upperChar))

/-- Leftmost rule-2 recognition match (line 93): the prefix before the
match, the captured groups, and the rest after the match. -/
def findR2 (s : List Char) : Option (List Char × R2Groups × List Char) :=
  findLeftB (fun _ t => matchHereR2 t) none s

/-- Digit string to integer (`int(...)` on a regex `\d+` capture). -/
def intOfDigits (s : String) : Int :=
  (s.toList.foldl (fun n c => n * 10 + (c.toNat - '0'.toNat)) 0 : Nat)

/-- The parsed query intent (the `out` dict of `parse_nl_query`, line 86). -/
structure Intent where
  q : Option String
  tipo : Option String
  numero : Option String
  anio : Option String
  anio_desde : Option String
  anio_hasta : Option String
  vigente : Option Bool
  limit : Option Int
  action : String
  deriving DecidableEq, Repr

/-- Model of `parse_nl_query` (lines 84-128). -/
def parse_nl_query (text : String) : Intent :=
  let raw := (pyStrip text).toList
  let action := if comparFound raw then "compare" else "search"
  let r2 := findR2 raw
  let tipo0 := r2.map fun m => tipoCanon m.2.1.word
  let numero := r2.map fun m => m.2.1.num
  let anio0 := r2.bind fun m => m.2.1.year
  let tipo := tipoAliases.foldl
    (fun acc kv => if standaloneTipo kv.1 raw then some kv.2 else acc) tipo0
  let vig0 : Option Bool := if cueFound trueCues raw then some true else none
  let vigente := if cueFound falseCues raw then some false else vig0
  let md := findMd raw
  let mh := findMh raw
  let mr := findMr raw
  let anio_desde := match mr with | some ab => some ab.1 | none => md
  let anio_hasta := match mr with | some ab => some ab.2 | none => mh
  let anio := match findMa raw with | some y => some y | none => anio0
  let lim := (findMl raw).map intOfDigits
  let qc := stripPipeline raw
  { q := if qc = "" then none else some qc
    tipo := tipo, numero := numero, anio := anio
    anio_desde := anio_desde, anio_hasta := anio_hasta
    vigente := vigente, limit := lim, action := action }

/-! ## Corpus model and rapidfuzz scores

A `Record` is one row: an association list from raw column name to textual
value (a missing key models a missing/NaN cell).  A `Frame` is a pandas
`DataFrame`: the ordered raw column names plus the ordered rows. -/

/-- One corpus row. -/
def Record := List (String × String)
  deriving DecidableEq

/-- A pandas `DataFrame`. -/
structure Frame where
  cols : List String
  rows : List Record

/-- Cell access with `fillna("")`: the value under column `c`, or `""` when
the cell is missing. -/
def cell (r : Record) (c : String) : String := ((r : List (String × String)).lookup c).getD ""

/-- Model of `CAND_COLS` (saij_core.py lines 12-21). -/
def CAND_COLS : List (String × List String) :=
  [("provincia", ["provincia", "jurisdiccion", "jurisdicción"]),
   ("tipo", ["tipo_norma", "tipo", "tipo de norma"]),
   ("numero", ["numero", "número", "nro", "n_norma", "nro_norma"]),
   ("anio", ["anio", "año", "ano", "ano_norma", "año_norma"]),
   ("fecha", ["fecha", "fecha_sancion", "fecha sancion", "fecha_sanción", "fecha_publicacion"]),
   ("sumario", ["sumario", "titulo", "título", "caratula", "carátula", "descripcion", "descripción"]),
   ("estado", ["estado", "vigencia", "estado_vigencia"]),
   ("url", ["url", "enlace", "link", "href"])]

/-- Alias list for a canonical field. -/
def candCols (field : String) : List String := (CAND_COLS.lookup field).getD []

/-- Model of `_filter_pba` (lines 72-76): keep rows whose resolved `provincia` column
contains "Buenos Aires" case-insensitively; keep everything when the column
is unresolved. -/
def filterPBA (f : Frame) : Frame :=
  match pickCol f.cols (candCols "provincia") with
  | some c => { f with rows := f.rows.filter (fun r => containsCI (cell r c) "Buenos Aires") }
  | none => f

/-! ### rapidfuzz, modelled over `ℚ` -/

/-- Longest common subsequence with explicit fuel (the fuel is structural so
that the kernel can evaluate it; `lcsFuel n` computes the true LCS whenever
`n ≥ |a| + |b|`). -/
def lcsFuel : Nat → List Char → List Char → Nat
  | 0, _, _ => 0
  | _ + 1, [], _ => 0
  | _ + 1, _, [] => 0
  | n + 1, a :: as, b :: bs =>
    if a = b then lcsFuel n as bs + 1
    else max (lcsFuel n (a :: as) bs) (lcsFuel n as (b :: bs))

/-- Longest common subsequence of two character lists. -/
def lcs (a b : List Char) : Nat := lcsFuel (a.length + b.length) a b

/-- Indel (insertion/deletion) distance: `|a| + |b| - 2·lcs(a,b)`. -/
def indelDist (a b : List Char) : Nat := a.length + b.length - 2 * lcs a b

/-- Normalized similarity on the 0-100 scale from a distance and the length
sum; rapidfuzz treats a normalized distance over an empty length sum as 0,
so two empty sequences have similarity 100. -/
def normSim (dist lensum : Nat) : ℚ :=
  if lensum = 0 then 100 else 100 * (1 - (dist : ℚ) / (lensum : ℚ))

/-- Model of `fuzz.ratio`: Indel normalized similarity of two character lists. -/
def indelSim (a b : List Char) : ℚ := normSim (indelDist a b) (a.length + b.length)

/-- Model of `fuzz.partial_ratio`: the best `fuzz.ratio` over all alignments of the
shorter sequence against equally long windows of the longer one. -/
def partialRatio (a b : List Char) : ℚ :=
  let p := if a.length ≤ b.length then (a, b) else (b, a)
  (((List.range (p.2.length - p.1.length + 1)).map
      (fun i => indelSim p.1 ((p.2.drop i).take p.1.length))).foldl max 0)

/-- Model of `_norm` (lines 78-79): `unidecode((s or "").lower())`.  `unidecode` is
modelled exactly on the Latin letters occurring in this corpus (accent
folding); other characters are left unchanged. -/
def unidecChar (c : Char) : Char :=
  if c = 'á' then 'a' else if c = 'é' then 'e' else if c = 'í' then 'i'
  else if c = 'ó' then 'o' else if c = 'ú' then 'u' else if c = 'ñ' then 'n'
  else if c = 'ü' then 'u' else c

/-- Model of `_norm` on a string, producing the normalized character list. -/
def pyNorm (s : String) : List Char := s.toList.map (fun c => unidecChar (lowerChar c))

/-- Python `t.count(tt)`: number of non-overlapping occurrences, scanning
left to right (an empty pattern occurs `len + 1` times). -/
def countOccFuel (pat : List Char) : Nat → List Char → Nat
  | 0, _ => 0
  | _ + 1, [] => if pat.isEmpty then 1 else 0
  | n + 1, c :: cs =>
    if pat.isPrefixOf (c :: cs) && !pat.isEmpty then
      1 + countOccFuel pat n ((c :: cs).drop pat.length)
    else if pat.isEmpty then
      1 + countOccFuel pat n cs
    else countOccFuel pat n cs

/-- Python `t.count(tt)`. -/
def countOcc (t pat : List Char) : Nat := countOccFuel pat (t.length + 1) t

/-- Model of `_rank_score` (lines 131-138): per term, `2.0` per literal occurrence of
the normalized term in the normalized text plus `0.02` of the partial
ratio. -/
def rank_score (text : String) (terms : List String) : ℚ :=
  let t := pyNorm text
  terms.foldl
    (fun score term =>
      if term = "" then score
      else
        let tt := pyNorm term
        score + 2 * (countOcc t tt : ℚ) + (2 / 100) * partialRatio t tt)
    0

/-! ### pandas sorting and truncation -/

/-- Stable ascending insertion (an element is placed before the first
existing element with a key not smaller than its own). -/
def insertAsc [LinearOrder β] (key : α → β) (x : α) : List α → List α
  | [] => [x]
  | y :: ys => if key x ≤ key y then x :: y :: ys else y :: insertAsc key x ys

/-- Stable ascending insertion sort (numpy's introsort is its stable
insertion sort on the small frames exercised here). -/
def sortAsc [LinearOrder β] (key : α → β) : List α → List α
  | [] => []
  | x :: xs => insertAsc key x (sortAsc key xs)

/-- Model of `sort_values(by, ascending=False)` as pandas implements it (`nargsort`):
ascending argsort, then the indexer is reversed — so ties end up in
reversed original order. -/
def pandasSortDesc [LinearOrder β] (key : α → β) (xs : List α) : List α :=
  (sortAsc key xs).reverse

/-- Model of `sort_values(ascending=False, na_position="last")` for an optional key
(`pd.to_datetime(..., errors="coerce")` produces `NaT` = `none`): non-null
keys ascending-argsorted then reversed, null keys appended in original
order. -/
def pandasSortDescNa (key : α → Option Nat) (xs : List α) : List α :=
  (sortAsc (fun x => (key x).getD 0) (xs.filter (fun x => (key x).isSome))).reverse ++
    xs.filter (fun x => (key x).isNone)

/-- pandas `df.head(n)`: the first `n` rows for `n ≥ 0`, and all but the
last `|n|` rows for negative `n`. -/
def pyHead (n : Int) (xs : List α) : List α :=
  if 0 ≤ n then xs.take n.toNat else xs.take (xs.length - (-n).toNat)

/-- First `(\d{4})` extracted from a cell, as in
`.str.extract(r"(\d{4})").fillna("0").astype(int)` (line 161): the value of
the first window of four consecutive digits, or 0 if none. -/
def extract4 : List Char → Nat
  | [] => 0
  | c :: cs =>
    match fourDigits (c :: cs) with
    | some dr => (intOfDigits (String.mk dr.1)).toNat
    | none => extract4 cs

/-! ### `search` (lines 140-185) -/

/-- Python truthiness of an optional string (`None` and `""` are falsy). -/
def truthyS : Option String → Bool
  | none => false
  | some s => !(s == "")

/-- The `tipo` filter (line 154): applied when `tipo` is truthy and the
`tipo` column resolved. -/
def tipoStage (c : Option String) (tipo : Option String) (rows : List Record) : List Record :=
  match c with
  | some col => if truthyS tipo then rows.filter (fun r => containsCI (cell r col) (tipo.getD "")) else rows
  | none => rows

/-- The `numero` filter (line 155): `re.escape` makes the requested number a
literal substring pattern. -/
def numeroStage (c : Option String) (numero : Option String) (rows : List Record) : List Record :=
  match c with
  | some col => if truthyS numero then rows.filter (fun r => containsCI (cell r col) (numero.getD "")) else rows
  | none => rows

/-- The year filter (lines 156-162): the exact `anio` substring filter when
`anio` is truthy, else the `[anio_desde or 1800, anio_hasta or 9999]` range
filter over the first extracted four-digit number when a bound is given.
The source converts the bounds with `int(...)`; the embedding takes the
already-converted numbers. -/
def yearStage (c : Option String) (anio : Option String) (anioDesde anioHasta : Option Nat)
    (rows : List Record) : List Record :=
  match c with
  | none => rows
  | some col =>
    if truthyS anio then rows.filter (fun r => containsCI (cell r col) (anio.getD ""))
    else if anioDesde.isSome || anioHasta.isSome then
      rows.filter (fun r =>
        decide (anioDesde.getD 1800 ≤ extract4 (cell r col).toList) &&
        decide (extract4 (cell r col).toList ≤ anioHasta.getD 9999))
    else rows

/-- The `estado` mask for the validity filter (lines 164-169): a regex
alternation of literal substrings, case-insensitive. -/
def vigMask (b : Bool) (v : String) : Bool :=
  if b then ["vigente", "en vigor", "activo"].any (fun p => containsCI v p)
  else ["no vigente", "derog", "anulad", "abrog", "caduc"].any (fun p => containsCI v p)

/-- The validity filter (lines 164-169). -/
def vigStage (c : Option String) (vigente : Option Bool) (rows : List Record) : List Record :=
  match vigente, c with
  | some b, some col => rows.filter (fun r => vigMask b (cell r col))
  | _, _ => rows

/-- The filtering stage of `search` (lines 145-169), before ranking and
truncation: jurisdiction filter, then `tipo`, `numero`, year and validity
filters, in source order. -/
def searchFiltered (f : Frame) (tipo : Option String) (vigente : Option Bool)
    (numero anio : Option String) (anioDesde anioHasta : Option Nat) : List Record :=
  let base := (filterPBA f).rows
  let r1 := tipoStage (pickCol f.cols (candCols "tipo")) tipo base
  let r2 := numeroStage (pickCol f.cols (candCols "numero")) numero r1
  let r3 := yearStage (pickCol f.cols (candCols "anio")) anio anioDesde anioHasta r2
  vigStage (pickCol f.cols (candCols "estado")) vigente r3

/-- The relevance score of one row (line 174): `_rank_score` of the
`fillna("")` summary cell against the whitespace-split query terms. -/
def scoreOf (cSum : String) (terms : List String) (r : Record) : ℚ :=
  rank_score (cell r cSum) terms

/-- Day-first date key, `pd.to_datetime(v, dayfirst=True, errors="coerce")`
modelled on the concrete formats `dd/mm/yyyy`, `dd-mm-yyyy` and
`yyyy-mm-dd`; anything else coerces to `NaT` (`none`).  Encoded as
`y*10000 + m*100 + d` so that the usual order on `Nat` is chronological. -/
def dateKey (s : String) : Option Nat :=
  let parts := (trimWsL s.toList).splitOnP (fun c => c = '/' || c = '-')
  match parts with
  | [a, b, c] =>
    if a.all Char.isDigit && b.all Char.isDigit && c.all Char.isDigit &&
       !a.isEmpty && !b.isEmpty && !c.isEmpty then
      let na := (intOfDigits (String.mk a)).toNat
      let nb := (intOfDigits (String.mk b)).toNat
      let nc := (intOfDigits (String.mk c)).toNat
      if a.length = 4 then
        -- yyyy-mm-dd
        if 1 ≤ nb && nb ≤ 12 && 1 ≤ nc && nc ≤ 31 then some (na * 10000 + nb * 100 + nc) else none
      else if c.length = 4 then
        -- dd/mm/yyyy, day first
        if 1 ≤ nb && nb ≤ 12 && 1 ≤ na && na ≤ 31 then some (nc * 10000 + nb * 100 + na) else none
      else none
    else none
  | _ => none

/-- The ordered (but untruncated) result of `search` (lines 171-181): sort
by relevance when free text is given and the summary column resolved, else
by parsed date descending when the date column resolved, else keep the
filtered order. -/
def searchSorted (f : Frame) (query tipo : Option String) (vigente : Option Bool)
    (numero anio : Option String) (anioDesde anioHasta : Option Nat) : List Record :=
  let rows := searchFiltered f tipo vigente numero anio anioDesde anioHasta
  let cSum := pickCol f.cols (candCols "sumario")
  let cFe := pickCol f.cols (candCols "fecha")
  if truthyS cSum && truthyS query then
    pandasSortDesc (scoreOf (cSum.getD "") (splitWs (query.getD ""))) rows
  else if truthyS cFe then
    pandasSortDescNa (fun r => dateKey (cell r (cFe.getD ""))) rows
  else rows

/-- The rows returned by `search` (lines 145-183): the ordered rows,
truncated by `head(limit)` unless `limit` is falsy (`0`). -/
def searchRows (f : Frame) (query tipo : Option String) (vigente : Option Bool)
    (numero anio : Option String) (anioDesde anioHasta : Option Nat) (limit : Int) :
    List Record :=
  let out := searchSorted f query tipo vigente numero anio anioDesde anioHasta
  if limit ≠ 0 then pyHead limit out else out

/-- The canonical column map returned by `search` (line 184). -/
structure ColsMap where
  sumario : Option String
  tipo : Option String
  estado : Option String
  numero : Option String
  anio : Option String
  fecha : Option String
  url : Option String
  deriving DecidableEq, Repr

/-- Model of `search` (lines 140-185): the rows and the canonical column map. -/
def search (f : Frame) (query tipo : Option String) (vigente : Option Bool)
    (numero anio : Option String) (anioDesde anioHasta : Option Nat) (limit : Int) :
    List Record × ColsMap :=
  (searchRows f query tipo vigente numero anio anioDesde anioHasta limit,
   { sumario := pickCol f.cols (candCols "sumario")
     tipo := pickCol f.cols (candCols "tipo")
     estado := pickCol f.cols (candCols "estado")
     numero := pickCol f.cols (candCols "numero")
     anio := pickCol f.cols (candCols "anio")
     fecha := pickCol f.cols (candCols "fecha")
     url := pickCol f.cols (candCols "url")})

/-- The effective limit of the human-facing caller (`bot.py`, `handle`,
lines 115-141): a missing intent limit falls back to the stored user
preference, then to the default 10, and the search is issued with
`max(10, limit)`. -/
def handle_limit (intentLimit userPref : Option Int) : Int :=
  max 10 ((intentLimit.orElse fun _ => userPref).getD 10)

/-- Model of `/limite n` (`bot.py` line 54): the stored preference is clamped to
`[1, 50]`. -/
def set_limit_pref (n : Int) : Int := max 1 (min 50 n)

/-! ## Comparison of two records (`summarize_row` / `compare_rows`,
saij_core.py lines 188-213) -/

/-- Model of `summarize_row` (lines 188-194): label the resolved
`tipo/numero/anio/fecha/estado` cells that are present and non-empty, join
them with "; ", append a newline and the summary cell, and strip. -/
def summarize_row (row : Record) (cols : ColsMap) : String :=
  let part := fun (oc : Option String) (label : String) =>
    match oc with
    | some c =>
      if c = "" then []
      else
        match (row : List (String × String)).lookup c with
        | some v => if v = "" then [] else [label ++ ": " ++ v]
        | none => []
    | none => []
  let t := part cols.tipo "Tipo" ++ part cols.numero "Numero" ++ part cols.anio "Anio" ++
    part cols.fecha "Fecha" ++ part cols.estado "Estado"
  let s :=
    match cols.sumario with
    | some c => ((row : List (String × String)).lookup c).getD ""
    | none => ""
  pyStrip ("; ".intercalate t ++ "\n" ++ s)

/-- Worker splitting a character list into maximal runs satisfying `p`
(the accumulator holds the current run reversed). -/
def runsAux (p : Char → Bool) : List Char → List Char → List (List Char)
  | [], acc => if acc.isEmpty then [] else [acc.reverse]
  | c :: cs, acc =>
    if p c then runsAux p cs (c :: acc)
    else if acc.isEmpty then runsAux p cs [] else acc.reverse :: runsAux p cs []

/-- Letters of the keyword-extraction character class
`[A-Za-zÁÉÍÓÚáéíóúñÑ]{4,}` (line 202). -/
def isKeyLetter (c : Char) : Bool :=
  c.isAlpha || ['Á','É','Í','Ó','Ú','á','é','í','ó','ú','ñ','Ñ'].contains c

/-- Model of the local `keys` function of `compare_rows` (lines 201-204):
alphabetic tokens of length at least 4 of the normalized text, with a small
stopword set removed, as a set (modelled as a duplicate-free list). -/
def keySet (s : String) : List String :=
  let toks := (runsAux isKeyLetter (pyNorm s) []).filter (fun w => 4 ≤ w.length)
  let stop := ["sobre", "para", "como", "ante", "entre", "hacia", "desde", "hasta",
    "fuera", "dentro", "este", "esta", "estaos", "estas"]
  ((toks.map String.mk).filter (fun w => !stop.contains w)).dedup

/-- Whitespace tokens of a string as a sorted duplicate-free list,
Python `sorted(set(s.split()))`. -/
def sortedTokenSet (s : String) : List String := sortAsc id (splitWs s).dedup

/-- Model of `fuzz.token_set_ratio`, after rapidfuzz's token-set algorithm:
with `t0` the common tokens and `t1`/`t2` the tokens unique to each side,
return 100 when the token sets are equal or share a word while one
difference is empty; otherwise the maximum of the Indel ratio of the joined
differences and the two sect ratios comparing the joined intersection
against intersection-plus-difference.  Two inputs with equal token sets (in
particular two whitespace-only strings) score 100, matching rapidfuzz's
convention that a normalized distance over an empty length sum is 0. -/
def tokenSetRatio (a b : String) : ℚ :=
  let ta := sortedTokenSet a
  let tb := sortedTokenSet b
  let inter := ta.filter (fun w => tb.contains w)
  let dAB := ta.filter (fun w => !tb.contains w)
  let dBA := tb.filter (fun w => !ta.contains w)
  if dAB.isEmpty && dBA.isEmpty then 100
  else if !inter.isEmpty && (dAB.isEmpty || dBA.isEmpty) then 100
  else
    let sAB := joinSp dAB
    let sBA := joinSp dBA
    let sectLen := (joinSp inter).length
    let sep : Nat := if sectLen = 0 then 0 else 1
    let base := indelSim sAB.toList sBA.toList
    let rAB := normSim (sep + sAB.length) (sectLen + (sectLen + sep + sAB.length))
    let rBA := normSim (sep + sBA.length) (sectLen + (sectLen + sep + sBA.length))
    max base (max rAB rBA)

/-- Structured content of `compare_rows` (lines 196-212): the similarity
score and the two keyword-difference lists (alphabetically sorted, capped
at 10). -/
structure CompareParts where
  sim : ℚ
  onlyA : List String
  onlyB : List String
  deriving DecidableEq, Repr

/-- Similarity score of `compare_rows` (line 199):
`fuzz.token_set_ratio(sa, sb)` over the two summaries. -/
def compare_sim (a b : Record) (cols : ColsMap) : ℚ :=
  tokenSetRatio (summarize_row a cols) (summarize_row b cols)

/-- Keywords appearing only in A (line 206): `sorted(list(ka-kb))[:10]`. -/
def compare_onlyA (a b : Record) (cols : ColsMap) : List String :=
  (sortAsc id ((keySet (summarize_row a cols)).filter
      (fun w => !(keySet (summarize_row b cols)).contains w))).take 10

/-- Keywords appearing only in B (line 207): `sorted(list(kb-ka))[:10]`. -/
def compare_onlyB (a b : Record) (cols : ColsMap) : List String :=
  (sortAsc id ((keySet (summarize_row b cols)).filter
      (fun w => !(keySet (summarize_row a cols)).contains w))).take 10

/-- Model of the computation inside `compare_rows` (lines 196-207). -/
def compareParts (a b : Record) (cols : ColsMap) : CompareParts :=
  ⟨compare_sim a b cols, compare_onlyA a b cols, compare_onlyB a b cols⟩

/-- Model of `compare_rows` (lines 196-213): the formatted report text built
from `compareParts`. -/
def compare_rows (a b : Record) (cols : ColsMap) : String :=
  let sa := summarize_row a cols
  let sb := summarize_row b cols
  let p := compareParts a b cols
  let oa := ", ".intercalate p.onlyA
  let ob := ", ".intercalate p.onlyB
  "🔎 *Similitud*: " ++ toString p.sim ++ "%\n\n" ++
  "◼️ A — " ++ String.mk (sa.toList.take 400) ++ "\n\n" ++
  "◼️ B — " ++ String.mk (sb.toList.take 400) ++ "\n\n" ++
  "🧩 Palabras/temas que aparecen solo en A: " ++ (if oa = "" then "—" else oa) ++ "\n" ++
  "🧩 Palabras/temas que aparecen solo en B: " ++ (if ob = "" then "—" else ob)

/-! ## Theorems -/

theorem contains_map_eq_any (f : String → String) (x : String) (cols : List String) :
    (cols.map f).contains x = cols.any (fun c => f c == x) := by
  induction cols with
  | nil => rfl
  | cons c cs ih =>
    simp only [List.map_cons, List.contains_cons, List.any_cons, ih]
    by_cases hc : f c = x
    · simp [hc]
    · have h1 : (f c == x) = false := beq_eq_false_iff_ne.mpr hc
      have h2 : (x == f c) = false := beq_eq_false_iff_ne.mpr (Ne.symm hc)
      simp [h1, h2]

theorem get_indexOf_map (f : String → String) (x : String) (cols : List String)
    (h : (cols.map f).contains x = true) :
    cols.get? ((cols.map f).indexOf x) = cols.find? (fun c => f c == x) := by
  induction cols with
  | nil => simp at h
  | cons c cs ih =>
    by_cases hc : f c = x
    · simp [List.indexOf_cons, List.find?_cons, hc]
    · have hbeq : (f c == x) = false := beq_eq_false_iff_ne.mpr hc
      have hx : (x == f c) = false := beq_eq_false_iff_ne.mpr (Ne.symm hc)
      simp only [List.map_cons, List.contains_cons, hx, Bool.false_or] at h
      simp only [List.map_cons, List.indexOf_cons, hx, cond_false, List.find?_cons, hbeq,
        List.get?_cons_succ]
      exact ih h

theorem zip_map_find (f : String → String) (P : String → Bool) (cols : List String) :
    ((cols.zip (cols.map f)).find? (fun p => P p.2)).map Prod.fst
      = cols.find? (fun c => P (f c)) := by
  induction cols with
  | nil => rfl
  | cons c cs ih =>
    by_cases hc : P (f c) = true
    · simp [List.find?_cons, hc]
    · simp only [Bool.not_eq_true] at hc
      simp [List.find?_cons, hc, ih]

/-- C5: `_pick_col` follows the two-pass algorithm exactly — the result is
the first column matching the first alias (in alias priority order) by
exact case-insensitive equality; failing that, the first column (in column
order) whose lowercased name contains some alias as a substring; failing
both, `none`.  Being a pure function of `(cols, keys)`, determinism is
definitional. -/
theorem pickCol_eq_spec (cols keys : List String) :
    pickCol cols keys = pickColSpec cols keys := by
  have hpred : (fun k => (cols.map lowerStr).contains (lowerStr k))
      = (fun k => cols.any (fun c => lowerStr c == lowerStr k)) :=
    funext fun k => contains_map_eq_any lowerStr (lowerStr k) cols
  simp only [pickCol, pickColSpec, hpred]
  cases hk : keys.find? (fun k => cols.any (fun c => lowerStr c == lowerStr k)) with
  | none =>
    have hz := zip_map_find lowerStr
      (fun lc => keys.any (fun k => subOf (lowerStr k).toList lc.toList)) cols
    simpa using hz
  | some k =>
    apply get_indexOf_map
    have hmem := List.find?_some hk
    rw [contains_map_eq_any]
    exact hmem

/-- C6: when both a true-validity cue (vigente/vigentes/en vigor/activo) and
a false-validity cue (derogad/no vigente/anulad/abrogad/caduc) occur in the
input, `parse_nl_query` returns `vigente = false` — the false-cue check is
evaluated second and overwrites, regardless of the cues' positions. -/
theorem vigente_false_wins (s : String)
    (ht : cueFound trueCues (pyStrip s).toList = true)
    (hf : cueFound falseCues (pyStrip s).toList = true) :
    (parse_nl_query s).vigente = some false := by
  simp only [parse_nl_query, hf, if_true]

/-- Witness for C6 at the concrete input "vigente y derogad". -/
theorem vigente_false_wins_witness :
    cueFound trueCues (pyStrip "vigente y derogad").toList = true ∧
    cueFound falseCues (pyStrip "vigente y derogad").toList = true ∧
    (parse_nl_query "vigente y derogad").vigente = some false :=
  ⟨by decide, by decide, vigente_false_wins "vigente y derogad" (by decide) (by decide)⟩

/-- C7: when the input contains both a bare year-range pattern
`<year> a|hasta|-|al <year>` and a separate `desde <year>` or `hasta <year>`
cue, the bare range pattern — applied last — determines both `anio_desde`
and `anio_hasta`, overriding any values the cues set (last-applied wins). -/
theorem range_overrides (s y1 y2 : String)
    (hr : findMr (pyStrip s).toList = some (y1, y2))
    (hcue : (findMd (pyStrip s).toList).isSome = true ∨
      (findMh (pyStrip s).toList).isSome = true) :
    (parse_nl_query s).anio_desde = some y1 ∧ (parse_nl_query s).anio_hasta = some y2 := by
  constructor <;> simp only [parse_nl_query, hr]

/-- Witness for C7 at "desde 1999 2000 a 2010": the cue sets 1999, the bare
range overrides it with 2000-2010. -/
theorem range_overrides_witness :
    findMr (pyStrip "desde 1999 2000 a 2010").toList = some ("2000", "2010") ∧
    findMd (pyStrip "desde 1999 2000 a 2010").toList = some "1999" ∧
    (parse_nl_query "desde 1999 2000 a 2010").anio_desde = some "2000" ∧
    (parse_nl_query "desde 1999 2000 a 2010").anio_hasta = some "2010" :=
  ⟨by decide, by decide,
   (range_overrides "desde 1999 2000 a 2010" "2000" "2010" (by decide) (Or.inl (by decide))).1,
   (range_overrides "desde 1999 2000 a 2010" "2000" "2010" (by decide) (Or.inl (by decide))).2⟩

theorem filter_not_contains_self (l : List String) :
    l.filter (fun w => !l.contains w) = [] := by
  rw [List.filter_eq_nil_iff]
  intro a ha
  simp [ha]

theorem insertAsc_perm [LinearOrder β] (key : α → β) (x : α) (l : List α) :
    List.Perm (insertAsc key x l) (x :: l) := by
  induction l with
  | nil => rfl
  | cons y ys ih =>
    by_cases h : key x ≤ key y
    · simp [insertAsc, h]
    · simp only [insertAsc, if_neg h]
      exact (ih.cons y).trans (List.Perm.swap x y ys)

theorem sortAsc_perm [LinearOrder β] (key : α → β) (l : List α) :
    List.Perm (sortAsc key l) l := by
  induction l with
  | nil => rfl
  | cons x xs ih => exact (insertAsc_perm key x (sortAsc key xs)).trans (ih.cons x)

theorem sortedTokenSet_nodup (s : String) : (sortedTokenSet s).Nodup :=
  ((sortAsc_perm id _).nodup_iff).mpr (List.nodup_dedup _)

theorem filter_contains_perm {ta tb : List String} (ha : ta.Nodup) (hb : tb.Nodup) :
    List.Perm (ta.filter (fun w => tb.contains w)) (tb.filter (fun w => ta.contains w)) := by
  rw [List.perm_ext_iff_of_nodup (ha.filter _) (hb.filter _)]
  intro a
  simp [List.mem_filter, and_comm]

theorem lcsFuel_comm : ∀ (n : Nat) (a b : List Char), lcsFuel n a b = lcsFuel n b a := by
  intro n
  induction n with
  | zero => intro a b; rfl
  | succ n ih =>
    intro a b
    match a, b with
    | [], [] => rfl
    | [], _ :: _ => rfl
    | _ :: _, [] => rfl
    | x :: xs, y :: ys =>
      simp only [lcsFuel]
      by_cases h : x = y
      · subst h; simp [ih]
      · have h2 : ¬ y = x := fun hy => h hy.symm
        rw [if_neg h, if_neg h2, ih (x :: xs) ys, ih xs (y :: ys), Nat.max_comm]

theorem lcs_comm (a b : List Char) : lcs a b = lcs b a := by
  unfold lcs
  rw [Nat.add_comm, lcsFuel_comm]

theorem indelDist_comm (a b : List Char) : indelDist a b = indelDist b a := by
  unfold indelDist
  rw [lcs_comm, Nat.add_comm]

theorem indelSim_comm (a b : List Char) : indelSim a b = indelSim b a := by
  unfold indelSim
  rw [indelDist_comm, Nat.add_comm]

theorem joinSp_length :
    ∀ ts : List String, (joinSp ts).length = (ts.map String.length).sum + ts.length - 1
  | [] => rfl
  | [t] => by simp [joinSp]
  | t :: u :: rest => by
    have ih := joinSp_length (u :: rest)
    have hsp : (" " : String).length = 1 := rfl
    simp only [joinSp, String.length_append, List.map_cons, List.sum_cons, List.length_cons,
      hsp] at *
    omega

theorem joinSp_length_perm {l₁ l₂ : List String} (h : List.Perm l₁ l₂) :
    (joinSp l₁).length = (joinSp l₂).length := by
  rw [joinSp_length, joinSp_length, (h.map String.length).sum_eq, h.length_eq]

theorem isEmpty_of_perm {l₁ l₂ : List String} (h : List.Perm l₁ l₂) : l₁.isEmpty = l₂.isEmpty := by
  have hl := h.length_eq
  cases l₁ with
  | nil => cases l₂ with
    | nil => rfl
    | cons b bs => simp at hl
  | cons a as => cases l₂ with
    | nil => simp at hl
    | cons b bs => rfl

theorem tokenSetRatio_comm (a b : String) : tokenSetRatio a b = tokenSetRatio b a := by
  unfold tokenSetRatio
  have hperm := filter_contains_perm (sortedTokenSet_nodup a) (sortedTokenSet_nodup b)
  have hie := isEmpty_of_perm hperm
  have hlen := joinSp_length_perm hperm
  simp only [hie, hlen, Bool.and_comm, Bool.or_comm, indelSim_comm, max_comm, max_left_comm]


/-- C9: self-comparison is maximal and empty-difference — for every record
and every canonical column map, comparing the record with itself yields
similarity exactly 100 and both keyword-difference lists empty. -/
theorem compare_self_maximal (r : Record) (cols : ColsMap) :
    compare_sim r r cols = 100 ∧ compare_onlyA r r cols = [] ∧
    compare_onlyB r r cols = [] := by
  refine ⟨?_, ?_, ?_⟩
  · unfold compare_sim tokenSetRatio
    simp [filter_not_contains_self]
  · unfold compare_onlyA
    rw [filter_not_contains_self]
    rfl
  · unfold compare_onlyB
    rw [filter_not_contains_self]
    rfl

/-- C10: comparison is symmetric up to swapping sides: for every pair of
records and every canonical column map, the similarity of (A, B) equals that
of (B, A), the "only in A" keyword list of (A, B) equals the "only in B"
list of (B, A), and vice versa. -/
theorem compare_symm (a b : Record) (cols : ColsMap) :
    compare_sim a b cols = compare_sim b a cols ∧
    compare_onlyA a b cols = compare_onlyB b a cols ∧
    compare_onlyB a b cols = compare_onlyA b a cols := by
  refine ⟨?_, ?_, ?_⟩
  · unfold compare_sim
    exact tokenSetRatio_comm _ _
  · unfold compare_onlyA compare_onlyB
    rfl
  · unfold compare_onlyA compare_onlyB
    rfl

theorem string_toList_append (a b : String) : (a ++ b).toList = a.toList ++ b.toList := rfl

theorem string_mk_toList (s : String) : String.mk s.toList = s := rfl

theorem splitWsAux_tokens :
    ∀ (s acc : List Char), acc.all (fun c => !isWs c) = true →
      ∀ t ∈ splitWsAux s acc, t ≠ [] ∧ t.all (fun c => !isWs c) = true := by
  intro s
  induction s with
  | nil =>
    intro acc hacc t ht
    simp only [splitWsAux] at ht
    by_cases h : acc.isEmpty
    · simp [h] at ht
    · simp only [h, if_neg, Bool.false_eq_true, if_false, List.mem_singleton] at ht
      subst ht
      refine ⟨?_, by simpa using hacc⟩
      intro hrev
      exact h (by simpa using congrArg List.isEmpty hrev)
  | cons c cs ih =>
    intro acc hacc t ht
    simp only [splitWsAux] at ht
    by_cases hws : isWs c
    · simp only [hws, if_true] at ht
      by_cases h : acc.isEmpty
      · simp only [h, if_true] at ht
        exact ih [] rfl t ht
      · simp only [h, Bool.false_eq_true, if_false, List.mem_cons] at ht
        rcases ht with ht | ht
        · subst ht
          refine ⟨?_, by simpa using hacc⟩
          intro hrev
          exact h (by simpa using congrArg List.isEmpty hrev)
        · exact ih [] rfl t ht
    · simp only [hws, Bool.false_eq_true, if_false] at ht
      refine ih (c :: acc) ?_ t ht
      simp [hacc, hws]

theorem splitWs_tokens (x : String) :
    ∀ w ∈ splitWs x, w ≠ "" ∧ w.toList.all (fun c => !isWs c) = true := by
  intro w hw
  simp only [splitWs, splitWsL, List.mem_map] at hw
  obtain ⟨t, ht, rfl⟩ := hw
  obtain ⟨h1, h2⟩ := splitWsAux_tokens x.toList [] rfl t ht
  constructor
  · intro hmk
    apply h1
    have := congrArg String.toList hmk
    simpa using this
  · simpa using h2

theorem splitWsAux_append_run :
    ∀ (w : List Char) (s acc : List Char), w.all (fun c => !isWs c) = true →
      splitWsAux (w ++ s) acc = splitWsAux s (w.reverse ++ acc) := by
  intro w
  induction w with
  | nil => intro s acc _; simp
  | cons c w' ih =>
    intro s acc hall
    simp only [List.all_cons, Bool.and_eq_true] at hall
    have hc : isWs c = false := by
      cases h : isWs c
      · rfl
      · rw [h] at hall; simp at hall
    simp only [List.cons_append, splitWsAux, hc, Bool.false_eq_true, if_false]
    rw [show w'.append s = w' ++ s from rfl, ih s (c :: acc) hall.2]
    simp

theorem splitWsL_joinSp :
    ∀ ts : List String, (∀ t ∈ ts, t ≠ "" ∧ t.toList.all (fun c => !isWs c) = true) →
      splitWsAux (joinSp ts).toList [] = ts.map String.toList := by
  intro ts
  induction ts with
  | nil => intro _; rfl
  | cons t rest ih =>
    intro hts
    obtain ⟨ht1, ht2⟩ := hts t (List.mem_cons_self t rest)
    have htne : t.toList ≠ [] := by
      intro h
      apply ht1
      have := congrArg String.mk h
      simpa [string_mk_toList] using this
    cases rest with
    | nil =>
      show splitWsAux t.toList [] = [t.toList]
      rw [← List.append_nil t.toList, splitWsAux_append_run t.toList [] [] ht2]
      simp only [splitWsAux, List.append_nil]
      have hne : (t.toList.reverse).isEmpty = false := by
        cases h : t.toList.reverse.isEmpty
        · rfl
        · exfalso; apply htne
          simpa using (List.isEmpty_iff.mp h)
      simp only [hne, Bool.false_eq_true, if_false, List.reverse_reverse]
    | cons u rest2 =>
      have hjoin : (joinSp (t :: u :: rest2)).toList
          = t.toList ++ ' ' :: (joinSp (u :: rest2)).toList := by
        show (t ++ " " ++ joinSp (u :: rest2)).toList = _
        rw [string_toList_append, string_toList_append, List.append_assoc]
        rfl
      rw [hjoin, splitWsAux_append_run t.toList _ [] ht2]
      have hsp : isWs ' ' = true := rfl
      simp only [splitWsAux, hsp, if_true, List.append_nil]
      have hne : (t.toList.reverse).isEmpty = false := by
        cases h : t.toList.reverse.isEmpty
        · rfl
        · exfalso; apply htne
          simpa using (List.isEmpty_iff.mp h)
      simp only [hne, Bool.false_eq_true, if_false, List.reverse_reverse]
      rw [ih (fun v hv => hts v (List.mem_cons_of_mem t hv))]
      rfl

theorem splitWs_joinSp (ts : List String)
    (h : ∀ t ∈ ts, t ≠ "" ∧ t.toList.all (fun c => !isWs c) = true) :
    splitWs (joinSp ts) = ts := by
  unfold splitWs splitWsL
  rw [splitWsL_joinSp ts h, List.map_map]
  have : String.mk ∘ String.toList = id := funext string_mk_toList
  rw [this, List.map_id]

theorem collapseWs_fixed (x : String) : collapseWs x = joinSp (splitWs (collapseWs x)) := by
  unfold collapseWs
  rw [splitWs_joinSp (splitWs x) (splitWs_tokens x)]

/-- C8 counterexample: "activo" is a rule-4 validity cue (the recognition
regex matches it and sets `vigente = true`), yet the free text `q` returned
for the input "activo" still contains it — the validity strip pattern
(line 124) omits the cues "en vigor" and "activo", so the matched substring
is not removed and `q` is not `none` as the claim requires. -/
theorem q_strip_counterexample :
    cueFound trueCues (pyStrip "activo").toList = true ∧
    (parse_nl_query "activo").vigente = some true ∧
    (parse_nl_query "activo").q = some "activo" :=
  ⟨by decide, by decide, by decide⟩

/-- C8 amended: the free text `q` is the input after applying the code's
five strip substitutions — which differ from the recognition rules: the
validity strip removes only `vigente|vigentes|derogad|no vigente|anulad|
abrogad|caduc` (not "en vigor" or "activo") and without word boundaries,
the type+number strip requires the year to follow `/` with no space, and
the range strip adds word boundaries absent from the recognition regex —
with whitespace collapsed to single spaces; an empty remainder yields
unspecified (`none`), never the empty string, and any returned `q` is in
collapsed form (it equals its own whitespace-split rejoined by single
spaces). -/
theorem q_strip_pipeline (s : String) :
    (parse_nl_query s).q
        = (if stripPipeline (pyStrip s).toList = "" then none
           else some (stripPipeline (pyStrip s).toList)) ∧
    (parse_nl_query s).q ≠ some "" ∧
    ∀ w, (parse_nl_query s).q = some w → w ≠ "" ∧ w = joinSp (splitWs w) := by
  have hq : (parse_nl_query s).q
      = (if stripPipeline (pyStrip s).toList = "" then none
         else some (stripPipeline (pyStrip s).toList)) := by
    unfold parse_nl_query
    by_cases h : stripPipeline (pyStrip s).toList = ""
    · simp [h]
    · simp [h]
  refine ⟨hq, ?_, ?_⟩
  · rw [hq]
    by_cases h : stripPipeline (pyStrip s).toList = ""
    · simp [h]
    · simp only [h, if_false]
      intro hsome
      exact h (Option.some.injEq _ _ ▸ (by simpa using hsome))
  · intro w hw
    rw [hq] at hw
    by_cases h : stripPipeline (pyStrip s).toList = ""
    · rw [if_pos h] at hw
      exact Option.noConfusion hw
    · rw [if_neg h] at hw
      have hw' := Option.some.inj hw
      subst hw'
      refine ⟨h, ?_⟩
      unfold stripPipeline
      exact collapseWs_fixed _

/-- Witness for the amended C8 at "hola  mundo": the double space collapses,
the result is non-empty and in collapsed form. -/
theorem q_strip_pipeline_witness :
    (parse_nl_query "hola  mundo").q ≠ some "" ∧
    "hola mundo" = joinSp (splitWs "hola mundo") :=
  ⟨(q_strip_pipeline "hola  mundo").2.1,
   ((q_strip_pipeline "hola  mundo").2.2 "hola mundo" (by decide)).2⟩

/-- C4 counterexample: on a 51-row corpus with no resolvable columns,
`search` with `limit=999` returns all 51 records — there is no ceiling of 50
anywhere in `search` — and on an 11-row corpus `limit=0` is falsy, so
`head` is skipped entirely and all 11 records are returned instead of the
claimed default of 10. -/
theorem limit_counterexample :
    (searchRows ⟨["c"], List.replicate 51 [("c", "x")]⟩
        none none none none none none none 999).length = 51 ∧
    ¬ (searchRows ⟨["c"], List.replicate 51 [("c", "x")]⟩
        none none none none none none none 999).length ≤ 50 ∧
    (searchRows ⟨["c"], List.replicate 11 [("c", "x")]⟩
        none none none none none none none 0).length = 11 ∧
    ¬ (searchRows ⟨["c"], List.replicate 11 [("c", "x")]⟩
        none none none none none none none 0).length ≤ 10 :=
  ⟨by decide, by decide, by decide, by decide⟩

/-- C4 amended: `search` itself enforces no ceiling of 50 — a positive
`limit` truncates to at most that many records (so `limit=999` returns at
most 999); `limit=0` is falsy in Python, so truncation is skipped entirely
and every filtered record is returned; a negative `limit` is passed to
`head`, which drops the last `|limit|` records; and the human-facing caller
(`bot.py handle`) issues the search with `max(10, requested)` — requests
below 10 are rounded up to 10, requests of 10 or more are honored
exactly. -/
theorem limit_handling (f : Frame) (query tipo : Option String) (vigente : Option Bool)
    (numero anio : Option String) (ad ah : Option Nat) (t : Int) (ud : Option Int) :
    (0 < t → (searchRows f query tipo vigente numero anio ad ah t).length ≤ t.toNat) ∧
    (searchRows f query tipo vigente numero anio ad ah 0
      = searchSorted f query tipo vigente numero anio ad ah) ∧
    (t < 0 → (searchRows f query tipo vigente numero anio ad ah t).length
      = (searchSorted f query tipo vigente numero anio ad ah).length - (-t).toNat) ∧
    (∀ r : Int, 10 ≤ r → handle_limit (some r) ud = r) ∧
    (∀ r : Int, r < 10 → handle_limit (some r) ud = 10) := by
  refine ⟨?_, ?_, ?_, ?_, ?_⟩
  · intro ht
    have hne : t ≠ 0 := by omega
    unfold searchRows pyHead
    rw [if_pos hne, if_pos (le_of_lt ht)]
    rw [List.length_take]
    exact Nat.min_le_left _ _
  · unfold searchRows
    simp
  · intro ht
    have hne : t ≠ 0 := by omega
    unfold searchRows pyHead
    rw [if_pos hne, if_neg (not_le.mpr ht)]
    rw [List.length_take]
    exact Nat.min_eq_left (Nat.sub_le _ _)
  · intro r hr
    unfold handle_limit
    exact max_eq_right hr
  · intro r hr
    unfold handle_limit
    exact max_eq_left (le_of_lt hr)

/-- Witness for the amended C4: a 3-row corpus searched with `limit=999`
returns at most 999 records, and the bot-layer effective limit rounds 3 up
to 10 while honoring 15 exactly. -/
theorem limit_handling_witness :
    (searchRows ⟨["c"], List.replicate 3 [("c", "x")]⟩
        none none none none none none none 999).length ≤ 999 ∧
    handle_limit (some 15) none = 15 ∧ handle_limit (some 3) none = 10 :=
  ⟨(limit_handling ⟨["c"], List.replicate 3 [("c", "x")]⟩
      none none none none none none none 999 none).1 (by norm_num),
   (limit_handling ⟨["c"], List.replicate 3 [("c", "x")]⟩
      none none none none none none none 999 none).2.2.2.1 15 (by norm_num),
   (limit_handling ⟨["c"], List.replicate 3 [("c", "x")]⟩
      none none none none none none none 999 none).2.2.2.2 3 (by norm_num)⟩

theorem digit_sub_le (c : Char) (h : c.isDigit = true) : c.toNat - '0'.toNat ≤ 9 := by
  simp only [Char.isDigit, ge_iff_le, Bool.and_eq_true, decide_eq_true_eq] at h
  obtain ⟨h1, h2⟩ := h
  have h3 : c.val.toNat ≤ 57 := UInt32.toNat_le_of_le (by norm_num) h2
  have h4 : ('0'.val.toNat) = 48 := rfl
  simp only [Char.toNat]
  omega

theorem fourDigits_digits :
    ∀ (s : List Char) (dr : List Char × List Char), fourDigits s = some dr →
      ∃ a b c d, dr.1 = [a, b, c, d] ∧ a.isDigit = true ∧ b.isDigit = true ∧
        c.isDigit = true ∧ d.isDigit = true := by
  intro s dr h
  match s with
  | [] => exact absurd h (by simp [fourDigits])
  | [_] => exact absurd h (by simp [fourDigits])
  | [_, _] => exact absurd h (by simp [fourDigits])
  | [_, _, _] => exact absurd h (by simp [fourDigits])
  | a :: b :: c :: d :: rest =>
    simp only [fourDigits] at h
    by_cases hd : (a.isDigit && b.isDigit && c.isDigit && d.isDigit) = true
    · rw [if_pos hd] at h
      have hdr := Option.some.inj h
      simp only [Bool.and_eq_true] at hd
      exact ⟨a, b, c, d, by rw [← hdr], hd.1.1.1, hd.1.1.2, hd.1.2, hd.2⟩
    · rw [if_neg hd] at h
      exact Option.noConfusion h

theorem intOfDigits_four_le (a b c d : Char) (ha : a.isDigit = true) (hb : b.isDigit = true)
    (hc : c.isDigit = true) (hd : d.isDigit = true) :
    (intOfDigits (String.mk [a, b, c, d])).toNat ≤ 9999 := by
  have va := digit_sub_le a ha
  have vb := digit_sub_le b hb
  have vc := digit_sub_le c hc
  have vd := digit_sub_le d hd
  unfold intOfDigits
  simp only [Int.toNat_natCast]
  show (((0 * 10 + (a.toNat - '0'.toNat)) * 10 + (b.toNat - '0'.toNat)) * 10
      + (c.toNat - '0'.toNat)) * 10 + (d.toNat - '0'.toNat) ≤ 9999
  omega

theorem extract4_le (s : List Char) : extract4 s ≤ 9999 := by
  induction s with
  | nil => simp [extract4]
  | cons c cs ih =>
    rw [extract4]
    cases hf : fourDigits (c :: cs) with
    | none => exact ih
    | some dr =>
      obtain ⟨x, y, z, w, hdr, hx, hy, hz, hw⟩ := fourDigits_digits (c :: cs) dr hf
      dsimp only
      rw [hdr]
      exact intOfDigits_four_le x y z w hx hy hz hw

theorem filter_sublist_filter (p q : α → Bool) :
    ∀ l : List α, (∀ x ∈ l, p x = true → q x = true) →
      (l.filter p).Sublist (l.filter q)
  | [], _ => by simp
  | x :: l, h => by
    have ih := filter_sublist_filter p q l (fun y hy hp => h y (List.mem_cons_of_mem x hy) hp)
    by_cases hp : p x = true
    · have hq := h x (List.mem_cons_self x l) hp
      simp only [List.filter_cons, hp, hq, if_true]
      exact ih.cons₂ x
    · simp only [List.filter_cons, hp, Bool.false_eq_true, if_false]
      by_cases hq : q x = true
      · simp only [hq, if_true]
        exact ih.cons x
      · simp only [hq, Bool.false_eq_true, if_false]
        exact ih

theorem tipoStage_sublist (c tipo : Option String) (rows : List Record) :
    (tipoStage c tipo rows).Sublist rows := by
  unfold tipoStage
  cases c with
  | none => exact List.Sublist.refl rows
  | some col =>
    dsimp only
    by_cases h : truthyS tipo = true
    · rw [if_pos h]
      exact List.filter_sublist rows
    · rw [if_neg h]

theorem tipoStage_mono (c tipo : Option String) {rows₁ rows₂ : List Record}
    (h : rows₁.Sublist rows₂) : (tipoStage c tipo rows₁).Sublist (tipoStage c tipo rows₂) := by
  unfold tipoStage
  cases c with
  | none => exact h
  | some col =>
    dsimp only
    by_cases ht : truthyS tipo = true
    · rw [if_pos ht, if_pos ht]
      exact h.filter _
    · rw [if_neg ht, if_neg ht]
      exact h

theorem numeroStage_sublist (c numero : Option String) (rows : List Record) :
    (numeroStage c numero rows).Sublist rows := by
  unfold numeroStage
  cases c with
  | none => exact List.Sublist.refl rows
  | some col =>
    dsimp only
    by_cases h : truthyS numero = true
    · rw [if_pos h]
      exact List.filter_sublist rows
    · rw [if_neg h]

theorem numeroStage_mono (c numero : Option String) {rows₁ rows₂ : List Record}
    (h : rows₁.Sublist rows₂) :
    (numeroStage c numero rows₁).Sublist (numeroStage c numero rows₂) := by
  unfold numeroStage
  cases c with
  | none => exact h
  | some col =>
    dsimp only
    by_cases ht : truthyS numero = true
    · rw [if_pos ht, if_pos ht]
      exact h.filter _
    · rw [if_neg ht, if_neg ht]
      exact h

theorem yearStage_sublist (c : Option String) (anio : Option String) (ad ah : Option Nat)
    (rows : List Record) : (yearStage c anio ad ah rows).Sublist rows := by
  unfold yearStage
  cases c with
  | none => exact List.Sublist.refl rows
  | some col =>
    dsimp only
    by_cases h1 : truthyS anio = true
    · rw [if_pos h1]
      exact List.filter_sublist rows
    · rw [if_neg h1]
      by_cases h2 : (ad.isSome || ah.isSome) = true
      · rw [if_pos h2]
        exact List.filter_sublist rows
      · rw [if_neg h2]

theorem yearStage_mono (c : Option String) (anio : Option String) (ad ah : Option Nat)
    {rows₁ rows₂ : List Record} (h : rows₁.Sublist rows₂) :
    (yearStage c anio ad ah rows₁).Sublist (yearStage c anio ad ah rows₂) := by
  unfold yearStage
  cases c with
  | none => exact h
  | some col =>
    dsimp only
    by_cases h1 : truthyS anio = true
    · rw [if_pos h1, if_pos h1]
      exact h.filter _
    · rw [if_neg h1, if_neg h1]
      by_cases h2 : (ad.isSome || ah.isSome) = true
      · rw [if_pos h2, if_pos h2]
        exact h.filter _
      · rw [if_neg h2, if_neg h2]
        exact h

theorem vigStage_sublist (c : Option String) (vigente : Option Bool) (rows : List Record) :
    (vigStage c vigente rows).Sublist rows := by
  unfold vigStage
  cases vigente with
  | none => exact List.Sublist.refl rows
  | some b =>
    cases c with
    | none => exact List.Sublist.refl rows
    | some col => exact List.filter_sublist rows

theorem vigStage_mono (c : Option String) (vigente : Option Bool) {rows₁ rows₂ : List Record}
    (h : rows₁.Sublist rows₂) : (vigStage c vigente rows₁).Sublist (vigStage c vigente rows₂) := by
  unfold vigStage
  cases vigente with
  | none => exact h
  | some b =>
    cases c with
    | none => exact h
    | some col => exact h.filter _

theorem filterPBA_sublist (f : Frame) : (filterPBA f).rows.Sublist f.rows := by
  unfold filterPBA
  cases pickCol f.cols (candCols "provincia") with
  | none => exact List.Sublist.refl f.rows
  | some c => exact List.filter_sublist f.rows

theorem searchFiltered_eq (f : Frame) (tipo : Option String) (vigente : Option Bool)
    (numero anio : Option String) (ad ah : Option Nat) :
    searchFiltered f tipo vigente numero anio ad ah
      = vigStage (pickCol f.cols (candCols "estado")) vigente
          (yearStage (pickCol f.cols (candCols "anio")) anio ad ah
            (numeroStage (pickCol f.cols (candCols "numero")) numero
              (tipoStage (pickCol f.cols (candCols "tipo")) tipo (filterPBA f).rows))) := rfl

theorem tipoStage_none (c : Option String) (rows : List Record) :
    tipoStage c none rows = rows := by
  unfold tipoStage
  cases c with
  | none => rfl
  | some col =>
    dsimp only
    rw [if_neg (by simp [truthyS])]

theorem numeroStage_none (c : Option String) (rows : List Record) :
    numeroStage c none rows = rows := by
  unfold numeroStage
  cases c with
  | none => rfl
  | some col =>
    dsimp only
    rw [if_neg (by simp [truthyS])]

theorem vigStage_none (c : Option String) (rows : List Record) :
    vigStage c none rows = rows := by
  unfold vigStage
  cases c <;> rfl

theorem yearStage_none3 (c : Option String) (rows : List Record) :
    yearStage c none none none rows = rows := by
  unfold yearStage
  cases c with
  | none => rfl
  | some col =>
    dsimp only
    rw [if_neg (by simp [truthyS]), if_neg (by simp)]

theorem yearStage_drop_ah (c : Option String) (anio : Option String) (ad ah : Option Nat)
    (rows : List Record) :
    (yearStage c anio ad ah rows).Sublist (yearStage c anio ad none rows) := by
  unfold yearStage
  cases c with
  | none => exact List.Sublist.refl rows
  | some col =>
    dsimp only
    by_cases h1 : truthyS anio = true
    · rw [if_pos h1, if_pos h1]
    · rw [if_neg h1, if_neg h1]
      cases ah with
      | none => exact List.Sublist.refl _
      | some h =>
        rw [if_pos (by simp)]
        cases ad with
        | none =>
          rw [if_neg (by simp)]
          exact List.filter_sublist rows
        | some d =>
          rw [if_pos (by simp)]
          apply filter_sublist_filter
          intro x _ hpx
          simp only [Bool.and_eq_true, decide_eq_true_eq, Option.getD_some,
            Option.getD_none] at hpx ⊢
          exact ⟨hpx.1, extract4_le _⟩

theorem yearStage_drop_ad (c : Option String) (anio : Option String) (ah : Option Nat)
    (rows : List Record) (d : Nat) (hd : 1800 ≤ d) :
    (yearStage c anio (some d) ah rows).Sublist (yearStage c anio none ah rows) := by
  unfold yearStage
  cases c with
  | none => exact List.Sublist.refl rows
  | some col =>
    dsimp only
    by_cases h1 : truthyS anio = true
    · rw [if_pos h1, if_pos h1]
    · rw [if_neg h1, if_neg h1]
      rw [if_pos (by simp)]
      cases ah with
      | none =>
        rw [if_neg (by simp)]
        exact List.filter_sublist rows
      | some h =>
        rw [if_pos (by simp)]
        apply filter_sublist_filter
        intro x _ hpx
        simp only [Bool.and_eq_true, decide_eq_true_eq, Option.getD_some,
          Option.getD_none] at hpx ⊢
        exact ⟨le_trans hd hpx.1, hpx.2⟩

theorem searchFiltered_sublist (f : Frame) (tipo : Option String) (vigente : Option Bool)
    (numero anio : Option String) (ad ah : Option Nat) :
    (searchFiltered f tipo vigente numero anio ad ah).Sublist f.rows := by
  rw [searchFiltered_eq]
  exact (vigStage_sublist _ _ _).trans ((yearStage_sublist _ _ _ _ _).trans
    ((numeroStage_sublist _ _ _).trans ((tipoStage_sublist _ _ _).trans
      (filterPBA_sublist f))))

theorem searchFiltered_drop_tipo (f : Frame) (tipo : Option String) (vigente : Option Bool)
    (numero anio : Option String) (ad ah : Option Nat) :
    (searchFiltered f tipo vigente numero anio ad ah).Sublist
      (searchFiltered f none vigente numero anio ad ah) := by
  rw [searchFiltered_eq, searchFiltered_eq]
  apply vigStage_mono
  apply yearStage_mono
  apply numeroStage_mono
  rw [tipoStage_none]
  exact tipoStage_sublist _ _ _

theorem searchFiltered_drop_numero (f : Frame) (tipo : Option String) (vigente : Option Bool)
    (numero anio : Option String) (ad ah : Option Nat) :
    (searchFiltered f tipo vigente numero anio ad ah).Sublist
      (searchFiltered f tipo vigente none anio ad ah) := by
  rw [searchFiltered_eq, searchFiltered_eq]
  apply vigStage_mono
  apply yearStage_mono
  rw [numeroStage_none]
  exact numeroStage_sublist _ _ _

theorem searchFiltered_drop_vig (f : Frame) (tipo : Option String) (vigente : Option Bool)
    (numero anio : Option String) (ad ah : Option Nat) :
    (searchFiltered f tipo vigente numero anio ad ah).Sublist
      (searchFiltered f tipo none numero anio ad ah) := by
  rw [searchFiltered_eq, searchFiltered_eq, vigStage_none]
  exact vigStage_sublist _ _ _

theorem searchFiltered_drop_anio (f : Frame) (tipo : Option String) (vigente : Option Bool)
    (numero anio : Option String) :
    (searchFiltered f tipo vigente numero anio none none).Sublist
      (searchFiltered f tipo vigente numero none none none) := by
  rw [searchFiltered_eq, searchFiltered_eq]
  apply vigStage_mono
  rw [yearStage_none3]
  exact yearStage_sublist _ _ _ _ _

theorem searchFiltered_drop_ah (f : Frame) (tipo : Option String) (vigente : Option Bool)
    (numero anio : Option String) (ad ah : Option Nat) :
    (searchFiltered f tipo vigente numero anio ad ah).Sublist
      (searchFiltered f tipo vigente numero anio ad none) := by
  rw [searchFiltered_eq, searchFiltered_eq]
  apply vigStage_mono
  exact yearStage_drop_ah _ _ _ _ _

theorem searchFiltered_drop_ad (f : Frame) (tipo : Option String) (vigente : Option Bool)
    (numero anio : Option String) (ah : Option Nat) (d : Nat) (hd : 1800 ≤ d) :
    (searchFiltered f tipo vigente numero anio (some d) ah).Sublist
      (searchFiltered f tipo vigente numero anio none ah) := by
  rw [searchFiltered_eq, searchFiltered_eq]
  apply vigStage_mono
  exact yearStage_drop_ad _ _ _ _ d hd

theorem searchFiltered_mem_prov (f : Frame) (tipo : Option String) (vigente : Option Bool)
    (numero anio : Option String) (ad ah : Option Nat) (c : String)
    (hc : pickCol f.cols (candCols "provincia") = some c) :
    ∀ r ∈ searchFiltered f tipo vigente numero anio ad ah,
      containsCI (cell r c) "Buenos Aires" = true := by
  intro r hr
  rw [searchFiltered_eq] at hr
  have h1 : r ∈ (filterPBA f).rows :=
    (tipoStage_sublist _ _ _).subset ((numeroStage_sublist _ _ _).subset
      ((yearStage_sublist _ _ _ _ _).subset ((vigStage_sublist _ _ _).subset hr)))
  unfold filterPBA at h1
  rw [hc] at h1
  dsimp only at h1
  exact (List.mem_filter.mp h1).2

theorem searchFiltered_mem_tipo (f : Frame) (tipo : Option String) (vigente : Option Bool)
    (numero anio : Option String) (ad ah : Option Nat) (t c : String)
    (ht : tipo = some t) (htt : t ≠ "") (hc : pickCol f.cols (candCols "tipo") = some c) :
    ∀ r ∈ searchFiltered f tipo vigente numero anio ad ah,
      containsCI (cell r c) t = true := by
  intro r hr
  rw [searchFiltered_eq] at hr
  have h1 : r ∈ tipoStage (pickCol f.cols (candCols "tipo")) tipo (filterPBA f).rows :=
    (numeroStage_sublist _ _ _).subset ((yearStage_sublist _ _ _ _ _).subset
      ((vigStage_sublist _ _ _).subset hr))
  rw [hc, ht] at h1
  unfold tipoStage at h1
  dsimp only at h1
  rw [if_pos (by simp [truthyS, htt])] at h1
  have h2 := List.of_mem_filter h1
  simpa using h2

theorem searchFiltered_mem_numero (f : Frame) (tipo : Option String) (vigente : Option Bool)
    (numero anio : Option String) (ad ah : Option Nat) (n c : String)
    (hn : numero = some n) (hnn : n ≠ "") (hc : pickCol f.cols (candCols "numero") = some c) :
    ∀ r ∈ searchFiltered f tipo vigente numero anio ad ah,
      containsCI (cell r c) n = true := by
  intro r hr
  rw [searchFiltered_eq] at hr
  have h1 : r ∈ numeroStage (pickCol f.cols (candCols "numero")) numero
      (tipoStage (pickCol f.cols (candCols "tipo")) tipo (filterPBA f).rows) :=
    (yearStage_sublist _ _ _ _ _).subset ((vigStage_sublist _ _ _).subset hr)
  rw [hc, hn] at h1
  unfold numeroStage at h1
  dsimp only at h1
  rw [if_pos (by simp [truthyS, hnn])] at h1
  have h2 := List.of_mem_filter h1
  simpa using h2

theorem searchFiltered_mem_anio (f : Frame) (tipo : Option String) (vigente : Option Bool)
    (numero anio : Option String) (ad ah : Option Nat) (a c : String)
    (ha : anio = some a) (haa : a ≠ "") (hc : pickCol f.cols (candCols "anio") = some c) :
    ∀ r ∈ searchFiltered f tipo vigente numero anio ad ah,
      containsCI (cell r c) a = true := by
  intro r hr
  rw [searchFiltered_eq] at hr
  have h1 : r ∈ yearStage (pickCol f.cols (candCols "anio")) anio ad ah
      (numeroStage (pickCol f.cols (candCols "numero")) numero
        (tipoStage (pickCol f.cols (candCols "tipo")) tipo (filterPBA f).rows)) :=
    (vigStage_sublist _ _ _).subset hr
  rw [hc, ha] at h1
  unfold yearStage at h1
  dsimp only at h1
  rw [if_pos (by simp [truthyS, haa])] at h1
  have h2 := List.of_mem_filter h1
  simpa using h2

theorem searchFiltered_mem_range (f : Frame) (tipo : Option String) (vigente : Option Bool)
    (numero anio : Option String) (ad ah : Option Nat) (c : String)
    (hna : truthyS anio = false) (hsome : (ad.isSome || ah.isSome) = true)
    (hc : pickCol f.cols (candCols "anio") = some c) :
    ∀ r ∈ searchFiltered f tipo vigente numero anio ad ah,
      ad.getD 1800 ≤ extract4 (cell r c).toList ∧
        extract4 (cell r c).toList ≤ ah.getD 9999 := by
  intro r hr
  rw [searchFiltered_eq] at hr
  have h1 : r ∈ yearStage (pickCol f.cols (candCols "anio")) anio ad ah
      (numeroStage (pickCol f.cols (candCols "numero")) numero
        (tipoStage (pickCol f.cols (candCols "tipo")) tipo (filterPBA f).rows)) :=
    (vigStage_sublist _ _ _).subset hr
  rw [hc] at h1
  unfold yearStage at h1
  dsimp only at h1
  rw [if_neg (by simp [hna]), if_pos hsome] at h1
  have h2 := List.of_mem_filter h1
  simp only [Bool.and_eq_true, decide_eq_true_eq] at h2
  exact h2

theorem searchFiltered_mem_vig (f : Frame) (tipo : Option String) (vigente : Option Bool)
    (numero anio : Option String) (ad ah : Option Nat) (b : Bool) (c : String)
    (hv : vigente = some b) (hc : pickCol f.cols (candCols "estado") = some c) :
    ∀ r ∈ searchFiltered f tipo vigente numero anio ad ah,
      vigMask b (cell r c) = true := by
  intro r hr
  rw [searchFiltered_eq, hv, hc] at hr
  unfold vigStage at hr
  dsimp only at hr
  exact (List.mem_filter.mp hr).2

/-- C2 counterexample: adding a filter can increase the result count.  On a
one-row corpus whose `anio` cell is "2020", the query with only
`anio_hasta=1999` returns 0 records, but adding `anio="2020"` displaces the
range filter (the `anio` branch takes precedence) and returns 1 record.
Likewise, on a corpus with `anio` cell "1500", adding `anio_desde=1500`
widens the range filter below its default lower bound 1800, growing the
result from 0 to 1 record. -/
theorem filtering_counterexample :
    (searchFiltered ⟨["anio"], [[("anio", "2020")]]⟩
        none none none (some "2020") none (some 1999)).length = 1 ∧
    (searchFiltered ⟨["anio"], [[("anio", "2020")]]⟩
        none none none none none (some 1999)).length = 0 ∧
    (searchFiltered ⟨["anio"], [[("anio", "1500")]]⟩
        none none none none (some 1500) (some 1999)).length = 1 ∧
    (searchFiltered ⟨["anio"], [[("anio", "1500")]]⟩
        none none none none none (some 1999)).length = 0 :=
  ⟨by decide, by decide, by decide, by decide⟩

/-- C2 amended: the filtering stage of `search` is an order-preserving
subsequence of the corpus, every surviving record satisfies each active
filter predicate (with the year-range predicate active only when `anio` is
falsy — `anio` displaces the range), and filtering is monotonic for
`tipo`, `numero` and `vigente` unconditionally, for `anio` when no range
bound is given, for `anio_hasta` unconditionally, and for `anio_desde`
when it is at least the default lower bound 1800; outside those
conditions adding a filter can increase the count (see the
counterexample). -/
theorem filtering_stage (f : Frame) (tipo : Option String) (vigente : Option Bool)
    (numero anio : Option String) (ad ah : Option Nat) :
    (searchFiltered f tipo vigente numero anio ad ah).Sublist f.rows ∧
    (∀ c, pickCol f.cols (candCols "provincia") = some c →
      ∀ r ∈ searchFiltered f tipo vigente numero anio ad ah,
        containsCI (cell r c) "Buenos Aires" = true) ∧
    (∀ t c, tipo = some t → t ≠ "" → pickCol f.cols (candCols "tipo") = some c →
      ∀ r ∈ searchFiltered f tipo vigente numero anio ad ah,
        containsCI (cell r c) t = true) ∧
    (∀ n c, numero = some n → n ≠ "" → pickCol f.cols (candCols "numero") = some c →
      ∀ r ∈ searchFiltered f tipo vigente numero anio ad ah,
        containsCI (cell r c) n = true) ∧
    (∀ a c, anio = some a → a ≠ "" → pickCol f.cols (candCols "anio") = some c →
      ∀ r ∈ searchFiltered f tipo vigente numero anio ad ah,
        containsCI (cell r c) a = true) ∧
    (truthyS anio = false → (ad.isSome || ah.isSome) = true →
      ∀ c, pickCol f.cols (candCols "anio") = some c →
      ∀ r ∈ searchFiltered f tipo vigente numero anio ad ah,
        ad.getD 1800 ≤ extract4 (cell r c).toList ∧
          extract4 (cell r c).toList ≤ ah.getD 9999) ∧
    (∀ b c, vigente = some b → pickCol f.cols (candCols "estado") = some c →
      ∀ r ∈ searchFiltered f tipo vigente numero anio ad ah,
        vigMask b (cell r c) = true) ∧
    (searchFiltered f tipo vigente numero anio ad ah).length
      ≤ (searchFiltered f none vigente numero anio ad ah).length ∧
    (searchFiltered f tipo vigente numero anio ad ah).length
      ≤ (searchFiltered f tipo vigente none anio ad ah).length ∧
    (searchFiltered f tipo vigente numero anio ad ah).length
      ≤ (searchFiltered f tipo none numero anio ad ah).length ∧
    (ad = none → ah = none →
      (searchFiltered f tipo vigente numero anio ad ah).length
        ≤ (searchFiltered f tipo vigente numero none none none).length) ∧
    (searchFiltered f tipo vigente numero anio ad ah).length
      ≤ (searchFiltered f tipo vigente numero anio ad none).length ∧
    (∀ d, ad = some d → 1800 ≤ d →
      (searchFiltered f tipo vigente numero anio ad ah).length
        ≤ (searchFiltered f tipo vigente numero anio none ah).length) := by
  refine ⟨searchFiltered_sublist f tipo vigente numero anio ad ah,
    fun c hc => searchFiltered_mem_prov f tipo vigente numero anio ad ah c hc,
    fun t c ht htt hc => searchFiltered_mem_tipo f tipo vigente numero anio ad ah t c ht htt hc,
    fun n c hn hnn hc => searchFiltered_mem_numero f tipo vigente numero anio ad ah n c hn hnn hc,
    fun a c ha haa hc => searchFiltered_mem_anio f tipo vigente numero anio ad ah a c ha haa hc,
    fun hna hsome c hc => searchFiltered_mem_range f tipo vigente numero anio ad ah c hna hsome hc,
    fun b c hv hc => searchFiltered_mem_vig f tipo vigente numero anio ad ah b c hv hc,
    (searchFiltered_drop_tipo f tipo vigente numero anio ad ah).length_le,
    (searchFiltered_drop_numero f tipo vigente numero anio ad ah).length_le,
    (searchFiltered_drop_vig f tipo vigente numero anio ad ah).length_le,
    ?_, (searchFiltered_drop_ah f tipo vigente numero anio ad ah).length_le, ?_⟩
  · intro h1 h2
    subst h1
    subst h2
    exact (searchFiltered_drop_anio f tipo vigente numero anio).length_le
  · intro d hd h1800
    subst hd
    exact (searchFiltered_drop_ad f tipo vigente numero anio ah d h1800).length_le

/-- Witness for the amended C2 on a one-row corpus with a `tipo` column:
the filtered rows are a subsequence of the corpus, the surviving record
contains the requested type, and dropping the `tipo` filter does not
shrink the result. -/
theorem filtering_stage_witness :
    (searchFiltered ⟨["tipo"], [[("tipo", "LEY")]]⟩
        (some "LEY") none none none none none).Sublist [[("tipo", "LEY")]] ∧
    containsCI (cell [("tipo", "LEY")] "tipo") "LEY" = true ∧
    (searchFiltered ⟨["tipo"], [[("tipo", "LEY")]]⟩
        (some "LEY") none none none none none).length
      ≤ (searchFiltered ⟨["tipo"], [[("tipo", "LEY")]]⟩
          none none none none none none).length :=
  ⟨(filtering_stage ⟨["tipo"], [[("tipo", "LEY")]]⟩ (some "LEY") none none none none none).1,
   (filtering_stage ⟨["tipo"], [[("tipo", "LEY")]]⟩ (some "LEY") none none none none none).2.2.1
     "LEY" "tipo" rfl (by decide) (by decide) [("tipo", "LEY")] (by decide),
   (filtering_stage ⟨["tipo"], [[("tipo", "LEY")]]⟩
     (some "LEY") none none none none none).2.2.2.2.2.2.2.1⟩

theorem filter_insertAsc [LinearOrder β] (key : α → β) (v : β) (x : α) (l : List α) :
    (insertAsc key x l).filter (fun y => decide (key y = v))
      = if key x = v then x :: l.filter (fun y => decide (key y = v))
        else l.filter (fun y => decide (key y = v)) := by
  induction l with
  | nil =>
    by_cases hx : key x = v
    · simp [insertAsc, hx]
    · simp [insertAsc, hx]
  | cons y ys ih =>
    by_cases hle : key x ≤ key y
    · rw [insertAsc, if_pos hle]
      by_cases hx : key x = v
      · simp [List.filter_cons, hx]
      · simp [List.filter_cons, hx]
    · rw [insertAsc, if_neg hle]
      have hlt : key y < key x := lt_of_not_le hle
      by_cases hx : key x = v
      · have hy : ¬ key y = v := by
          intro h
          exact absurd (hx ▸ h ▸ hlt) (lt_irrefl _)
        rw [if_pos hx]
        simp only [List.filter_cons, decide_eq_true_eq, hy, if_false, ih, if_pos hx]
      · rw [if_neg hx]
        simp only [List.filter_cons, decide_eq_true_eq, ih, if_neg hx]

theorem sortAsc_filter_eq [LinearOrder β] (key : α → β) (v : β) (l : List α) :
    (sortAsc key l).filter (fun y => decide (key y = v))
      = l.filter (fun y => decide (key y = v)) := by
  induction l with
  | nil => rfl
  | cons x xs ih =>
    rw [sortAsc, filter_insertAsc]
    by_cases hx : key x = v
    · rw [if_pos hx, ih]
      simp [List.filter_cons, hx]
    · rw [if_neg hx, ih]
      simp [List.filter_cons, hx]

theorem pandasSortDesc_filter [LinearOrder β] (key : α → β) (v : β) (l : List α) :
    (pandasSortDesc key l).filter (fun y => decide (key y = v))
      = (l.filter (fun y => decide (key y = v))).reverse := by
  unfold pandasSortDesc
  rw [List.filter_reverse, sortAsc_filter_eq]

theorem searchSorted_eq (f : Frame) (query tipo : Option String) (vigente : Option Bool)
    (numero anio : Option String) (ad ah : Option Nat) :
    searchSorted f query tipo vigente numero anio ad ah
      = (if (truthyS (pickCol f.cols (candCols "sumario")) && truthyS query) = true then
          pandasSortDesc (scoreOf ((pickCol f.cols (candCols "sumario")).getD "")
            (splitWs (query.getD ""))) (searchFiltered f tipo vigente numero anio ad ah)
        else if truthyS (pickCol f.cols (candCols "fecha")) = true then
          pandasSortDescNa
            (fun r => dateKey (cell r ((pickCol f.cols (candCols "fecha")).getD "")))
            (searchFiltered f tipo vigente numero anio ad ah)
        else searchFiltered f tipo vigente numero anio ad ah) := rfl

theorem pandasSortDesc_pair [LinearOrder β] (key : α → β) (x y : α) (h : key x = key y) :
    pandasSortDesc key [x, y] = [y, x] := by
  unfold pandasSortDesc
  have h1 : sortAsc key [x, y] = [x, y] := by
    simp only [sortAsc, insertAsc]
    rw [if_pos (le_of_eq h)]
  rw [h1]
  rfl

/-- C3 counterexample: on a two-row corpus with identical summaries (hence
identical relevance scores), the ranked output REVERSES the filtered order
instead of preserving it — pandas' `sort_values(ascending=False)` argsorts
ascending and reverses the indexer, turning the stable tie order around. -/
theorem ranking_ties_counterexample :
    searchFiltered ⟨["titulo", "x"], [[("titulo", "a"), ("x", "0")], [("titulo", "a"), ("x", "1")]]⟩
        none none none none none none
      = [[("titulo", "a"), ("x", "0")], [("titulo", "a"), ("x", "1")]] ∧
    scoreOf "titulo" ["a"] [("titulo", "a"), ("x", "0")]
      = scoreOf "titulo" ["a"] [("titulo", "a"), ("x", "1")] ∧
    searchSorted ⟨["titulo", "x"], [[("titulo", "a"), ("x", "0")], [("titulo", "a"), ("x", "1")]]⟩
        (some "a") none none none none none none
      = [[("titulo", "a"), ("x", "1")], [("titulo", "a"), ("x", "0")]] := by
  refine ⟨by decide, ?_, ?_⟩
  · unfold scoreOf
    have h0 : cell [("titulo", "a"), ("x", "0")] "titulo" = "a" := by decide
    have h1 : cell [("titulo", "a"), ("x", "1")] "titulo" = "a" := by decide
    rw [h0, h1]
  · rw [searchSorted_eq, if_pos (by decide)]
    have hfil : searchFiltered
        ⟨["titulo", "x"], [[("titulo", "a"), ("x", "0")], [("titulo", "a"), ("x", "1")]]⟩
        none none none none none none
        = [[("titulo", "a"), ("x", "0")], [("titulo", "a"), ("x", "1")]] := by decide
    rw [hfil]
    apply pandasSortDesc_pair
    unfold scoreOf
    have h0 : cell [("titulo", "a"), ("x", "0")]
        ((pickCol (Frame.mk ["titulo", "x"]
            [[("titulo", "a"), ("x", "0")], [("titulo", "a"), ("x", "1")]]).cols
          (candCols "sumario")).getD "") = "a" := by decide
    have h1 : cell [("titulo", "a"), ("x", "1")]
        ((pickCol (Frame.mk ["titulo", "x"]
            [[("titulo", "a"), ("x", "0")], [("titulo", "a"), ("x", "1")]]).cols
          (candCols "sumario")).getD "") = "a" := by decide
    rw [h0, h1]

/-- C3 amended: the relevance ranking is anti-stable — for every corpus,
filter combination and non-empty free-text query with a resolved summary
column, the records of any equal-score class appear in the ranked output in
REVERSED filtered order (pandas performs an ascending argsort, which is
stable for the underlying insertion sort modelled here, and then reverses
the whole indexer for `ascending=False`). -/
theorem ranking_ties_reversed (f : Frame) (query tipo : Option String) (vigente : Option Bool)
    (numero anio : Option String) (ad ah : Option Nat) (q c : String) (v : ℚ)
    (hq : query = some q) (hq2 : q ≠ "")
    (hc : pickCol f.cols (candCols "sumario") = some c) (hc2 : c ≠ "") :
    (searchSorted f query tipo vigente numero anio ad ah).filter
        (fun r => decide (scoreOf c (splitWs q) r = v))
      = ((searchFiltered f tipo vigente numero anio ad ah).filter
          (fun r => decide (scoreOf c (splitWs q) r = v))).reverse := by
  rw [searchSorted_eq, hc, hq]
  rw [if_pos (by simp [truthyS, hc2, hq2])]
  dsimp only [Option.getD_some]
  exact pandasSortDesc_filter _ v _

/-- Witness for the amended C3 at the two-row tie corpus, with the common
score value 4. -/
theorem ranking_ties_reversed_witness :
    (searchSorted ⟨["titulo", "x"], [[("titulo", "a"), ("x", "0")], [("titulo", "a"), ("x", "1")]]⟩
        (some "a") none none none none none none).filter
        (fun r => decide (scoreOf "titulo" (splitWs "a") r = 4))
      = ((searchFiltered ⟨["titulo", "x"],
            [[("titulo", "a"), ("x", "0")], [("titulo", "a"), ("x", "1")]]⟩
            none none none none none none).filter
          (fun r => decide (scoreOf "titulo" (splitWs "a") r = 4))).reverse :=
  ranking_ties_reversed
    ⟨["titulo", "x"], [[("titulo", "a"), ("x", "0")], [("titulo", "a"), ("x", "1")]]⟩
    (some "a") none none none none none none "a" "titulo" 4 rfl (by decide) (by decide)
    (by decide)

theorem matchCI_length : ∀ (ps t r : List Char), matchCI ps t = some r →
    r.length + ps.length = t.length := by
  intro ps
  induction ps with
  | nil =>
    intro t r h
    simp only [matchCI, Option.some.injEq] at h
    subst h
    simp
  | cons p ps ih =>
    intro t r h
    cases t with
    | nil => exact absurd h (by simp [matchCI])
    | cons c cs =>
      simp only [matchCI] at h
      by_cases hc : lowerChar c = p
      · rw [if_pos hc] at h
        have := ih cs r h
        simp only [List.length_cons]
        omega
      · rw [if_neg hc] at h
        exact Option.noConfusion h

theorem skipWs_length : ∀ t : List Char, (skipWs t).length ≤ t.length := by
  intro t
  induction t with
  | nil => simp [skipWs]
  | cons c cs ih =>
    rw [skipWs]
    by_cases hc : isWs c = true
    · rw [if_pos hc]
      simp only [List.length_cons]
      omega
    · rw [if_neg hc]

theorem wsPlus_length (t r : List Char) (h : wsPlus t = some r) : r.length < t.length := by
  cases t with
  | nil => exact absurd h (by simp [wsPlus])
  | cons c cs =>
    simp only [wsPlus] at h
    by_cases hc : isWs c = true
    · rw [if_pos hc] at h
      have := Option.some.inj h
      subst this
      have := skipWs_length cs
      simp only [List.length_cons]
      omega
    · rw [if_neg hc] at h
      exact Option.noConfusion h

theorem dropWhile_length (p : Char → Bool) : ∀ t : List Char, (t.dropWhile p).length ≤ t.length := by
  intro t
  induction t with
  | nil => simp
  | cons c cs ih =>
    rw [List.dropWhile]
    by_cases hc : p c = true
    · rw [hc]
      simp only [List.length_cons]
      omega
    · rw [Bool.not_eq_true] at hc
      rw [hc]

theorem digitsPlus_length (t ds r : List Char) (h : digitsPlus t = some (ds, r)) :
    r.length ≤ t.length := by
  unfold digitsPlus at h
  by_cases he : (t.takeWhile Char.isDigit).isEmpty = true
  · rw [if_pos he] at h
    exact Option.noConfusion h
  · rw [if_neg he] at h
    injection Option.some.inj h with h1 h2
    subst h2
    exact dropWhile_length _ t

theorem fourDigits_length : ∀ (t ds r : List Char), fourDigits t = some (ds, r) →
    r.length ≤ t.length := by
  intro t ds r h
  match t with
  | [] => exact absurd h (by simp [fourDigits])
  | [_] => exact absurd h (by simp [fourDigits])
  | [_, _] => exact absurd h (by simp [fourDigits])
  | [_, _, _] => exact absurd h (by simp [fourDigits])
  | a :: b :: c :: d :: rest =>
    simp only [fourDigits] at h
    by_cases hd : (a.isDigit && b.isDigit && c.isDigit && d.isDigit) = true
    · rw [if_pos hd] at h
      injection Option.some.inj h with h1 h2
      subst h2
      simp only [List.length_cons]
      omega
    · rw [if_neg hd] at h
      exact Option.noConfusion h

theorem tipoWordHere_length (t : List Char) (w : String) (r : List Char)
    (h : tipoWordHere t = some (w, r)) : r.length ≤ t.length := by
  unfold tipoWordHere at h
  cases h1 : matchCI "ley".toList t with
  | some r1 =>
    rw [h1] at h
    dsimp only at h
    injection Option.some.inj h with h2 h3
    subst h3
    have hl := matchCI_length _ t r1 h1
    omega
  | none =>
    rw [h1] at h
    dsimp only at h
    cases h2 : matchCI "decreto".toList t with
    | some r2 =>
      rw [h2] at h
      dsimp only at h
      injection Option.some.inj h with h3 h4
      subst h4
      have hl := matchCI_length _ t r2 h2
      omega
    | none =>
      rw [h2] at h
      dsimp only at h
      cases h3 : matchCI "resoluci".toList t with
      | none =>
        rw [h3] at h
        exact Option.noConfusion h
      | some r3 =>
        rw [h3] at h
        cases r3 with
        | nil =>
          dsimp only at h
          exact Option.noConfusion h
        | cons c3 cs3 =>
          dsimp only at h
          split at h
          · cases h4 : matchCI "n".toList cs3 with
            | none =>
              rw [h4] at h
              exact Option.noConfusion h
            | some r4 =>
              rw [h4] at h
              dsimp only at h
              injection Option.some.inj h with h5 h6
              subst h6
              have hl3 := matchCI_length _ t (c3 :: cs3) h3
              have hl4 := matchCI_length _ cs3 r4 h4
              simp only [List.length_cons] at hl3
              omega
          · exact Option.noConfusion h

theorem r2FrontHere_length (t : List Char) (w n : String) (r : List Char)
    (h : r2FrontHere t = some (w, n, r)) : r.length < t.length := by
  unfold r2FrontHere at h
  cases h1 : tipoWordHere t with
  | none =>
    rw [h1] at h
    exact Option.noConfusion h
  | some wr =>
    rw [h1] at h
    simp only [Option.bind_eq_bind, Option.some_bind] at h
    cases h2 : wsPlus wr.2 with
    | none =>
      rw [h2] at h
      exact Option.noConfusion h
    | some r2 =>
      rw [h2] at h
      simp only [Option.some_bind] at h
      cases h3 : digitsPlus r2 with
      | none =>
        rw [h3] at h
        exact Option.noConfusion h
      | some dr =>
        rw [h3] at h
        dsimp only [Option.map] at h
        injection Option.some.inj h with h4 h5
        injection h5 with h6 h7
        subst h7
        have hl1 := tipoWordHere_length t wr.1 wr.2 (by rw [h1])
        have hl2 := wsPlus_length wr.2 r2 h2
        have hl3 := digitsPlus_length r2 dr.1 dr.2 (by rw [h3])
        omega

theorem isWs_not_digit (c : Char) (h : isWs c = true) : c.isDigit = false := by
  simp only [isWs, Bool.or_eq_true, decide_eq_true_eq] at h
  rcases h with ⟨⟨⟨⟨rfl | rfl⟩ | rfl⟩ | rfl⟩ | rfl⟩ | rfl <;> decide

theorem fourDigits_of_dropWhile_none (r : List Char)
    (h : fourDigits (r.dropWhile isWs) = none) : fourDigits r = none := by
  cases r with
  | nil => rfl
  | cons c cs =>
    by_cases hc : isWs c = true
    · have hd : c.isDigit = false := isWs_not_digit c hc
      cases cs with
      | nil => rfl
      | cons b cs2 =>
        cases cs2 with
        | nil => rfl
        | cons c2 cs3 =>
          cases cs3 with
          | nil => rfl
          | cons d cs4 => simp [fourDigits, hd]
    · rw [List.dropWhile_cons_of_neg (by simpa using hc)] at h
      exact h

theorem matchHereStrip1_consumes (t rest : List Char)
    (h : matchHereStrip1 t = some rest) : rest.length < t.length := by
  unfold matchHereStrip1 at h
  cases h1 : r2FrontHere t with
  | none => rw [h1] at h; exact Option.noConfusion h
  | some wnr =>
    rw [h1] at h
    dsimp only [Option.map] at h
    have hfront := r2FrontHere_length t wnr.1 wnr.2.1 wnr.2.2 (by rw [h1])
    injection h with h2
    cases hu : wnr.2.2 with
    | nil =>
      rw [hu] at h2 hfront
      dsimp only at h2
      subst h2
      exact hfront
    | cons c r =>
      rw [hu] at h2 hfront
      dsimp only at h2
      by_cases hc : c = '/'
      · rw [if_pos hc] at h2
        cases h4 : fourDigits r with
        | some yr =>
          rw [h4] at h2
          dsimp only at h2
          subst h2
          have h5 := fourDigits_length r yr.1 yr.2 (by rw [h4])
          simp only [List.length_cons] at hfront
          omega
        | none =>
          rw [h4] at h2
          dsimp only at h2
          subst h2
          exact hfront
      · rw [if_neg hc] at h2
        subst h2
        exact hfront

theorem matchHereStrip1_none_iff (t : List Char) :
    matchHereStrip1 t = none ↔ matchHereR2 t = none := by
  unfold matchHereStrip1 matchHereR2
  cases r2FrontHere t <;> simp

theorem matchHereR2_some_strip (t : List Char) (g : R2Groups) (rest : List Char)
    (h : matchHereR2 t = some (g, rest)) (hgap : g.wsGap = 0) :
    matchHereStrip1 t = some rest := by
  unfold matchHereR2 at h
  unfold matchHereStrip1
  cases h1 : r2FrontHere t with
  | none => rw [h1] at h; exact Option.noConfusion h
  | some wnr =>
    rw [h1] at h
    dsimp only [Option.map] at h ⊢
    injection h with h2
    cases hu : wnr.2.2 with
    | nil =>
      rw [hu] at h2
      dsimp only at h2
      injection h2 with hg hr
      subst hr
      rfl
    | cons c r =>
      rw [hu] at h2
      dsimp only at h2 ⊢
      by_cases hc : c = '/'
      · rw [if_pos hc] at h2 ⊢
        cases h4 : fourDigits (r.dropWhile isWs) with
        | some yr =>
          rw [h4] at h2
          dsimp only at h2
          injection h2 with hg hr
          subst hr
          have hlen : (r.takeWhile isWs).length = 0 := by
            rw [← hg] at hgap; exact hgap
          have htw : r.takeWhile isWs = [] := List.eq_nil_of_length_eq_zero hlen
          have hdw : r.dropWhile isWs = r := by
            cases r with
            | nil => rfl
            | cons a as =>
              by_cases ha : isWs a = true
              · exfalso
                rw [List.takeWhile_cons_of_pos (by simpa using ha)] at htw
                exact List.noConfusion htw
              · rw [List.dropWhile_cons_of_neg (by simpa using ha)]
          rw [hdw] at h4
          rw [h4]
        | none =>
          rw [h4] at h2
          dsimp only at h2
          injection h2 with hg hr
          subst hr
          rw [fourDigits_of_dropWhile_none r h4]
      · rw [if_neg hc] at h2 ⊢
        injection h2 with hg hr
        subst hr
        rfl

theorem findLeftB_r2_strip1 : ∀ (s : List Char) (prev1 prev2 : Option Char)
    (pre : List Char) (g : R2Groups) (rest : List Char),
    findLeftB (fun _ t => matchHereR2 t) prev1 s = some (pre, g, rest) →
    g.wsGap = 0 →
    findLeftB (fun _ t => matchHereStrip1 t) prev2 s = some (pre, rest) := by
  intro s
  induction s with
  | nil =>
    intro prev1 prev2 pre g rest h hgap
    dsimp only [findLeftB] at h ⊢
    cases h0 : matchHereR2 [] with
    | none => rw [h0] at h; exact Option.noConfusion h
    | some gr =>
      rw [h0] at h
      dsimp only [Option.map] at h
      injection h with h1
      injection h1 with h2 h3
      rw [matchHereR2_some_strip [] g rest (by rw [h0, ← h3]) hgap]
      dsimp only [Option.map]
      rw [h2]
  | cons c cs ih =>
    intro prev1 prev2 pre g rest h hgap
    dsimp only [findLeftB] at h ⊢
    cases h0 : matchHereR2 (c :: cs) with
    | some gr =>
      rw [h0] at h
      injection h with h1
      injection h1 with h2 h3
      rw [matchHereR2_some_strip (c :: cs) g rest (by rw [h0, ← h3]) hgap]
      rw [h2]
    | none =>
      rw [h0] at h
      rw [(matchHereStrip1_none_iff (c :: cs)).mpr h0]
      cases h1 : findLeftB (fun _ t => matchHereR2 t) (some c) cs with
      | none => rw [h1] at h; exact Option.noConfusion h
      | some pa =>
        rw [h1] at h
        dsimp only [Option.map] at h
        injection h with h2
        injection h2 with h3 h4
        have h1' : findLeftB (fun _ t => matchHereR2 t) (some c) cs =
            some (pa.1, g, rest) := by
          rw [h1, ← h4]
        rw [ih (some c) (some c) pa.1 g rest h1' hgap]
        dsimp only [Option.map]
        rw [← h3]

theorem findLeftB_length (mh : Option Char → List Char → Option (List Char))
    (hmh : ∀ p t r, mh p t = some r → r.length < t.length) :
    ∀ (s : List Char) (prev : Option Char) (pre rest : List Char),
    findLeftB mh prev s = some (pre, rest) →
    pre.length + rest.length < s.length := by
  intro s
  induction s with
  | nil =>
    intro prev pre rest h
    dsimp only [findLeftB] at h
    cases h0 : mh prev [] with
    | none => rw [h0] at h; exact Option.noConfusion h
    | some r =>
      exact absurd (hmh prev [] r h0) (by simp)
  | cons c cs ih =>
    intro prev pre rest h
    dsimp only [findLeftB] at h
    cases h0 : mh prev (c :: cs) with
    | some r =>
      rw [h0] at h
      injection h with h1
      injection h1 with h2 h3
      subst h2
      subst h3
      simpa using hmh prev (c :: cs) r h0
    | none =>
      rw [h0] at h
      cases h1 : findLeftB mh (some c) cs with
      | none => rw [h1] at h; exact Option.noConfusion h
      | some pa =>
        rw [h1] at h
        dsimp only [Option.map] at h
        injection h with h2
        injection h2 with h3 h4
        subst h4
        have := ih (some c) pa.1 pa.2 (by rw [h1])
        rw [← h3]
        simp only [List.length_cons]
        omega

theorem subAll_succ (mh : Option Char → List Char → Option (List Char))
    (n : Nat) (prev : Option Char) (s : List Char) :
    subAll mh (n + 1) prev s =
      match findLeftB mh prev s with
      | none => s
      | some pa =>
        pa.1 ++ ' ' :: subAll mh n
          (((((s.drop pa.1.length).take (s.length - pa.1.length - pa.2.length)).getLast?).orElse
            fun _ => prev) : Option Char) pa.2 := rfl

theorem findLeftB_prev_irrel {α : Type} (f : List Char → Option α)
    (p q : Option Char) (s : List Char) :
    findLeftB (fun _ t => f t) p s = findLeftB (fun _ t => f t) q s := by
  cases s <;> rfl

theorem subAll_prev_irrel (f : List Char → Option (List Char)) :
    ∀ (n : Nat) (p q : Option Char) (s : List Char),
    subAll (fun _ t => f t) n p s = subAll (fun _ t => f t) n q s := by
  intro n
  induction n with
  | zero => intro p q s; rfl
  | succ m ih =>
    intro p q s
    rw [subAll_succ, subAll_succ, findLeftB_prev_irrel f p q s]
    cases h : findLeftB (fun _ t => f t) q s with
    | none => rfl
    | some pa =>
      dsimp only
      exact congrArg (fun z => pa.1 ++ ' ' :: z) (ih _ _ pa.2)

theorem subAll_fuel (f : List Char → Option (List Char))
    (hcons : ∀ t r, f t = some r → r.length < t.length) :
    ∀ (n m : Nat) (p : Option Char) (s : List Char), s.length < n → s.length < m →
    subAll (fun _ t => f t) n p s = subAll (fun _ t => f t) m p s := by
  intro n
  induction n with
  | zero =>
    intro m p s hn _
    exact absurd hn (by omega)
  | succ n' ih =>
    intro m p s hn hm
    cases m with
    | zero => exact absurd hm (by omega)
    | succ m' =>
      rw [subAll_succ, subAll_succ]
      cases h : findLeftB (fun _ t => f t) p s with
      | none => rfl
      | some pa =>
        dsimp only
        have hlen := findLeftB_length (fun _ t => f t)
          (fun p2 t r hr => hcons t r hr) s p pa.1 pa.2 (by rw [h])
        exact congrArg (fun z => pa.1 ++ ' ' :: z)
          (ih m' _ pa.2 (by omega) (by omega))

theorem strip1_step (s pre rest : List Char)
    (h : findLeftB (fun _ t => matchHereStrip1 t) none s = some (pre, rest)) :
    strip1 s = pre ++ ' ' :: strip1 rest := by
  have hlen := findLeftB_length (fun _ t => matchHereStrip1 t)
    (fun p t r hr => matchHereStrip1_consumes t r hr) s none pre rest h
  unfold strip1
  rw [subAll_succ, h]
  dsimp only
  refine congrArg (fun z => pre ++ ' ' :: z) ?_
  refine (subAll_prev_irrel matchHereStrip1 s.length _ none rest).trans ?_
  exact subAll_fuel matchHereStrip1 (fun t r hr => matchHereStrip1_consumes t r hr)
    s.length (rest.length + 1) none rest (by omega) (by omega)

theorem foldl_alias_stable (raw : List Char) (v : String) :
    ∀ (l : List (String × String)) (acc : Option String),
    (∀ kv ∈ l, standaloneTipo kv.1 raw = true → kv.2 = v) →
    acc = some v →
    l.foldl (fun acc kv => if standaloneTipo kv.1 raw then some kv.2 else acc) acc =
      some v := by
  intro l
  induction l with
  | nil => intro acc _ ha; exact ha
  | cons kv rest ih =>
    intro acc hall ha
    simp only [List.foldl_cons]
    apply ih
    · intro kv2 h2 hs
      exact hall kv2 (List.mem_cons_of_mem kv h2) hs
    · by_cases hs : standaloneTipo kv.1 raw = true
      · rw [if_pos hs, hall kv (List.mem_cons_self kv rest) hs]
      · rw [if_neg hs]
        exact ha

/-- C1 counterexample: the input "ley 10/ 2024 decreto año 1999" contains the
combined pattern (the rule-2 recognition regex matches "ley 10/ 2024" with
tipo-word "ley", digits "10" and year group "2024"), yet `parse_nl_query`
returns tipo = DECRETO (the later standalone-alias rule overrides the
combined pattern's LEY), anio = 1999 (the `año` cue overrides the year
group), and q = "/ 2024 decreto año 1999": the matched substring is not
removed from the free text, because the strip regex on line 121 has no
`\s*` between `/` and the year, so it removes only "ley 10". -/
theorem tipo_numero_counterexample :
    findR2 (pyStrip "ley 10/ 2024 decreto año 1999").toList =
      some ([], ⟨"ley", "10", some "2024", 1⟩, " decreto año 1999".toList) ∧
    (parse_nl_query "ley 10/ 2024 decreto año 1999").tipo = some "DECRETO" ∧
    (parse_nl_query "ley 10/ 2024 decreto año 1999").numero = some "10" ∧
    (parse_nl_query "ley 10/ 2024 decreto año 1999").anio = some "1999" ∧
    (parse_nl_query "ley 10/ 2024 decreto año 1999").q =
      some "/ 2024 decreto año 1999" := by
  refine ⟨by decide, by decide, by decide, by decide, by decide⟩

/-- C1 (amended): when the rule-2 recognition regex finds its leftmost match
with captured groups `g` on the stripped input, `parse_nl_query` returns
numero = the digit run and anio = the optional year group, provided no `año`
cue occurs (`findMa … = none`, otherwise the cue overrides the year group);
it returns tipo = the canonical label of the matched tipo-word provided every
standalone alias occurring in the input maps to that same label (otherwise
the later rule-3 pass overrides it); and when no whitespace separates `/`
from the year group (`g.wsGap = 0`, always true when the year group is
absent) the rule-2 strip removes exactly the matched substring, replacing it
with a space: `strip1` maps the input `pre ++ matched ++ rest` to
`pre ++ " " ++ strip1 rest`. -/
theorem tipo_numero_pattern (s : String) (pre : List Char) (g : R2Groups) (rest : List Char)
    (hfind : findR2 (pyStrip s).toList = some (pre, g, rest))
    (htipo : ∀ kv ∈ tipoAliases, standaloneTipo kv.1 (pyStrip s).toList = true →
      kv.2 = tipoCanon g.word)
    (hanio : findMa (pyStrip s).toList = none)
    (hgap : g.wsGap = 0) :
    (parse_nl_query s).tipo = some (tipoCanon g.word) ∧
    (parse_nl_query s).numero = some g.num ∧
    (parse_nl_query s).anio = g.year ∧
    strip1 (pyStrip s).toList = pre ++ ' ' :: strip1 rest := by
  refine ⟨?_, ?_, ?_, ?_⟩
  · simp only [parse_nl_query, hfind, Option.map_some']
    exact foldl_alias_stable (pyStrip s).toList (tipoCanon g.word) tipoAliases
      (some (tipoCanon g.word)) htipo rfl
  · simp only [parse_nl_query, hfind, Option.map_some']
  · simp only [parse_nl_query, hfind, hanio, Option.some_bind]
  · exact strip1_step _ pre rest
      (findLeftB_r2_strip1 _ none none pre g rest hfind hgap)

/-- Witness for the amended C1 at the concrete input "ley 14528": the
recognition match has pre = "", word "ley", digits "14528", no year, and
empty rest; all hypotheses hold and the conclusions evaluate as stated. -/
theorem tipo_numero_pattern_witness :
    findR2 (pyStrip "ley 14528").toList =
      some ([], ⟨"ley", "14528", none, 0⟩, []) ∧
    (parse_nl_query "ley 14528").tipo = some (tipoCanon "ley") ∧
    (parse_nl_query "ley 14528").numero = some "14528" ∧
    (parse_nl_query "ley 14528").anio = none ∧
    strip1 (pyStrip "ley 14528").toList = [] ++ ' ' :: strip1 [] := by
  have h := tipo_numero_pattern "ley 14528" [] ⟨"ley", "14528", none, 0⟩ []
    (by decide) (by decide) (by decide) rfl
  exact ⟨by decide, h.1, h.2.1, h.2.2.1, h.2.2.2⟩
